import Mathlib

/-!
# Webflow table builder: verification of the core conversion layer

Shallow embedding of the core of the `webflow-tables` repository
(`src/App.jsx` and `src/components/table-preview.tsx`): the CSV codec,
the style-dedup index, the node-graph builder, the graph extractor and
the tree-traversal engine, together with proofs about them.

Modelling conventions:
* JS strings are `String`, arrays are `List`, objects are structures.
* The `uid` helper (random id strings) is modelled by a fresh-name counter
  threaded through a `BuildState`; ids are `Nat`.
* Nullable JS values are `Option`.
* The unbounded DFS in `getTextFromNode` gets an explicit fuel argument,
  instantiated at call sites with a bound large enough for acyclic graphs.
-/

namespace WebflowTables

/-! ## Character-level string helpers

The JS string primitives are modelled on `List Char` (`String.data`) so
that every definition evaluates by kernel reduction. -/

/-- `String.prototype.trim`. -/
def trimStr (s : String) : String :=
  String.mk
    (((s.data.dropWhile Char.isWhitespace).reverse.dropWhile Char.isWhitespace).reverse)

/-- `String.prototype.toLowerCase` (ASCII, as all compared tags are). -/
def toLowerStr (s : String) : String := String.mk (s.data.map Char.toLower)

/-- Splitting on whitespace runs, producing the raw (possibly empty) parts. -/
def splitWsAux : List Char → List Char → List String
  | [], acc => [String.mk acc.reverse]
  | c :: rest, acc =>
    if c.isWhitespace then String.mk acc.reverse :: splitWsAux rest []
    else splitWsAux rest (c :: acc)

/-! ## CSV codec (`parseCSV` / `stringifyCSV`, App.jsx lines 251–325) -/

/-- State machine of the RFC4180-ish parser in `parseCSV`: the remaining
input, the `inQuotes` flag, the accumulated `rows`, the current `row`, and
the current `field` (as chars).  On end of input the last field is flushed
and the last row is emitted only `if (row.length > 1 || row[0] !== "")`. -/
def parseCSVAux : List Char → Bool → List (List String) → List String → List Char →
    List (List String)
  | [], _, rows, row, field =>
      let lastRow := row ++ [String.mk field]
      if lastRow.length > 1 ∨ lastRow.headD "" ≠ "" then rows ++ [lastRow] else rows
  | '"' :: '"' :: rest, true, rows, row, field => parseCSVAux rest true rows row (field ++ ['"'])
  | '"' :: rest, true, rows, row, field => parseCSVAux rest false rows row field
  | c :: rest, true, rows, row, field => parseCSVAux rest true rows row (field ++ [c])
  | '"' :: rest, false, rows, row, field => parseCSVAux rest true rows row field
  | ',' :: rest, false, rows, row, field => parseCSVAux rest false rows (row ++ [String.mk field]) []
  | '\n' :: rest, false, rows, row, field =>
      parseCSVAux rest false (rows ++ [row ++ [String.mk field]]) [] []
  | '\r' :: rest, false, rows, row, field => parseCSVAux rest false rows row field
  | c :: rest, false, rows, row, field => parseCSVAux rest false rows row (field ++ [c])

/-- `parseCSV(input)` of App.jsx. -/
def parseCSV (input : String) : List (List String) :=
  parseCSVAux input.data false [] [] []

/-- Doubling of quotes, the `String(cell).replace(/"/g, '""')` step. -/
def escapeQuotes : List Char → List Char
  | [] => []
  | c :: cs => if c = '"' then '"' :: '"' :: escapeQuotes cs else c :: escapeQuotes cs

/-- The `/[",\n\r]/.test(cell)` check of `stringifyCSV`. -/
def needsQuote (cell : String) : Bool :=
  cell.data.any (fun c => c == '"' || c == ',' || c == '\n' || c == '\r')

/-- Encoding of one cell in `stringifyCSV`. -/
def encodeCell (cell : String) : String :=
  let escaped := String.mk (escapeQuotes cell.data)
  if needsQuote cell then "\"" ++ escaped ++ "\"" else escaped

/-- `Array.prototype.join(sep)`. -/
def joinSep (sep : String) : List String → String
  | [] => ""
  | [x] => x
  | x :: y :: xs => x ++ sep ++ joinSep sep (y :: xs)

/-- `stringifyCSV(rows)` of App.jsx. -/
def stringifyCSV (rows : List (List String)) : String :=
  joinSep "\n" (rows.map (fun r => joinSep "," (r.map encodeCell)))

/-! ## Style resolution (`tokenCss` / `tailwindToStyleLess`, App.jsx lines 469–561) -/

/-- The curated `twScaleRem` map; JS object lookup by the digit string. -/
def twScaleRem : String → Option String
  | "0" => some "0rem"
  | "1" => some "0.25rem"
  | "2" => some "0.5rem"
  | "3" => some "0.75rem"
  | "4" => some "1rem"
  | "5" => some "1.25rem"
  | "6" => some "1.5rem"
  | "8" => some "2rem"
  | "10" => some "2.5rem"
  | "12" => some "3rem"
  | "16" => some "4rem"
  | "20" => some "5rem"
  | "24" => some "6rem"
  | "32" => some "8rem"
  | _ => none

/-- Directions of the `^(p|px|py|pt|pr|pb|pl)-(\d+)$` regex. -/
def padDirs : List String := ["p", "px", "py", "pt", "pr", "pb", "pl"]

/-- Matching of the padding regex: direction and digit group. -/
def padMatch (token : String) : Option (String × String) :=
  padDirs.findSome? (fun dir =>
    if (dir.data ++ ['-']).isPrefixOf token.data then
      let rest := token.data.drop (dir.data.length + 1)
      if rest.length > 0 && rest.all Char.isDigit then some (dir, String.mk rest)
      else none
    else none)

/-- The `switch (dir)` of `tokenCss`. -/
def padCss (dir val : String) : String :=
  if dir = "p" then "padding: " ++ val ++ ";"
  else if dir = "px" then "padding-left: " ++ val ++ "; padding-right: " ++ val ++ ";"
  else if dir = "py" then "padding-top: " ++ val ++ "; padding-bottom: " ++ val ++ ";"
  else if dir = "pt" then "padding-top: " ++ val ++ ";"
  else if dir = "pr" then "padding-right: " ++ val ++ ";"
  else if dir = "pb" then "padding-bottom: " ++ val ++ ";"
  else if dir = "pl" then "padding-left: " ++ val ++ ";"
  else ""

/-- Matching of the `^gap-(\d+)$` regex. -/
def gapMatch (token : String) : Option String :=
  if (("gap-" : String).data).isPrefixOf token.data then
    let rest := token.data.drop 4
    if rest.length > 0 && rest.all Char.isDigit then some (String.mk rest) else none
  else none

/-- Literal token checks appearing after the `gap` check in `tokenCss`. -/
def tokenCssTail (token : String) : String :=
  if token = "text-center" then "text-align: center;"
  else if token = "border" then "border-style: solid; border-width: 1px;"
  else if token = "rounded-md" then
    "border-top-left-radius: 6px; border-top-right-radius: 6px; border-bottom-left-radius: 6px; border-bottom-right-radius: 6px;"
  else if token = "bg-blue-500" then "background-color: #3B82F6;"
  else if token = "border-blue-500" then
    "border-top-color: #3B82F6; border-right-color: #3B82F6; border-bottom-color: #3B82F6; border-left-color: #3B82F6;"
  else if token = "text-white" then "color: #fff;"
  else if token = "transition-colors" then
    "transition-property: border-color, background-color;"
  else if token = "duration-200" then "transition-duration: 200ms;"
  else if token = "ease-in-out" then "transition-timing-function: ease;"
  else ""

/-- `tokenCss(token)` of App.jsx: padding regex first, then literal tokens, the
gap regex (falling through on an unknown scale), and the remaining literals. -/
def tokenCss (token : String) : String :=
  match padMatch token with
  | some dirNum =>
    match twScaleRem dirNum.2 with
    | some val => padCss dirNum.1 val
    | none => ""
  | none =>
    if token = "w-full" then "width: 100%;"
    else if token = "max-w-7xl" then "max-width: 80rem;"
    else if token = "mx-auto" then "margin-left: auto; margin-right: auto;"
    else if token = "flex" then "display: flex;"
    else if token = "grid" then "display: grid;"
    else if token = "items-center" then "align-items: center;"
    else if token = "justify-center" then "justify-content: center;"
    else
      match gapMatch token with
      | some num =>
        match twScaleRem num with
        | some val => "grid-row-gap: " ++ val ++ "; grid-column-gap: " ++ val ++ ";"
        | none => tokenCssTail token
      | none => tokenCssTail token

/-- `String(n).trim().split(/\s+/)` followed by the `.filter(Boolean)` that all
call sites apply (directly or after mapping). -/
def splitWs (s : String) : List String :=
  (splitWsAux (trimStr s).data []).filter (fun t => t ≠ "")

/-- `tailwindToStyleLess(className)` of App.jsx. -/
def tailwindToStyleLess (className : String) : String :=
  if className = "" then ""
  else joinSep " " (((splitWs className).map tokenCss).filter (fun t => t ≠ ""))

/-- The fixed `SECTION_PRESETS` table: declaration text and variants. -/
def SECTION_PRESETS : String → Option (String × List (String × String))
  | "section_table" => some ("", [])
  | "padding-global" => some ("padding-right: 5%; padding-left: 5%;", [])
  | "container-large" =>
      some ("width: 100%; max-width: 80rem; margin-right: auto; margin-left: auto;", [])
  | "padding-section-medium" =>
      some ("padding-top: 5rem; padding-bottom: 5rem;",
        [("medium", "padding-top: 4rem; padding-bottom: 4rem;"),
         ("small", "padding-top: 3rem; padding-bottom: 3rem;")])
  | "table_component" => some ("", [])
  | _ => none

/-! ## Style records and the per-build dedup index (App.jsx lines 563–604)

A `Style` keeps the semantically relevant fields of the JS style record;
the constant fields (`fake: false`, `type: "class"`, empty `namespace`,
`comb`, `children`, null `createdBy`/`origin`/`selector`) are omitted. -/

structure Style where
  _id : Nat
  name : String
  styleLess : String
  variants : List (String × String)
deriving Repr, DecidableEq

/-- Mutable state of one build invocation: the `styles` array, the
`styleIndex` map (association list in insertion order) and the `uid`
counter (ids are modelled as the values of a fresh counter). -/
structure BuildState where
  styles : List Style
  styleIndex : List (String × Nat)
  nextId : Nat
deriving Repr, DecidableEq

/-- A fresh id from the `uid` counter. -/
def freshId (st : BuildState) : Nat × BuildState :=
  (st.nextId, { st with nextId := st.nextId + 1 })

/-- The record appended for a newly seen style name: declaration and
variants come from the preset table when the name is a preset, else from
the Tailwind translation. -/
def styleRecord (name : String) (sid : Nat) : Style :=
  let resolved := match SECTION_PRESETS name with
    | some p => p
    | none => (tailwindToStyleLess name, [])
  { _id := sid, name := name, styleLess := resolved.1, variants := resolved.2 }

/-- `ensureStyle(name)` of App.jsx: `null` on a blank name, cache hit returns
the existing id, otherwise resolve (preset first, Tailwind map second),
append one record and index it. -/
def ensureStyle (name : String) (st : BuildState) : Option Nat × BuildState :=
  if trimStr name = "" then (none, st)
  else
    match List.lookup name st.styleIndex with
    | some sid => (some sid, st)
    | none =>
      (some st.nextId,
        { styles := st.styles ++ [styleRecord name st.nextId],
          styleIndex := st.styleIndex ++ [(name, st.nextId)],
          nextId := st.nextId + 1 })

/-- Token-by-token `ensureStyle`, dropping `null` results (`classIds` core). -/
def classIdsAux : List String → BuildState → List Nat × BuildState
  | [], st => ([], st)
  | n :: rest, st =>
    let first := ensureStyle n st
    let others := classIdsAux rest first.2
    match first.1 with
    | some sid => (sid :: others.1, others.2)
    | none => (others.1, others.2)

/-- `classIds(list)` of App.jsx: flat-map whitespace splitting, then
`ensureStyle` on every token (duplicates included), dropping `null`s. -/
def classIds (list : List String) (st : BuildState) : List Nat × BuildState :=
  classIdsAux ((list.map splitWs).flatten) st

/-! ## Nodes and the node-graph builder (App.jsx lines 219–247 and 461–752) -/

/-- A node of the graph.  DOM element nodes (from `makeDomNode`) carry
`tag = "div"`, the real tag in `dataTag` (JS `data.tag`), classes, children
and attributes; text nodes (from `makeTextNode`) carry `text = true` and the
value `v`, and have no tag/classes/children (empty here).  The constant JS
fields `type: "DOM"` and `data.slot: ""` are omitted. -/
structure Node where
  _id : Nat
  text : Bool := false
  v : String := ""
  tag : String := ""
  dataTag : String := ""
  classes : List Nat := []
  children : List Nat := []
  attributes : List (String × String) := []
deriving Repr, DecidableEq

/-- `makeDomNode({tag, classes, attributes})` with a fresh id supplied. -/
def makeDomNode (nid : Nat) (tag : String) (classes : List Nat)
    (attributes : List (String × String)) : Node :=
  { _id := nid, text := false, v := "", tag := "div", dataTag := tag,
    classes := classes, children := [], attributes := attributes }

/-- `makeTextNode(textValue)` with a fresh id supplied. -/
def makeTextNode (nid : Nat) (textValue : String) : Node :=
  { _id := nid, text := true, v := textValue }

/-- Full configuration of one build: the React state feeding the `built`
memo.  `csvData` is the parsed grid or `null`. -/
structure Config where
  cols : Nat := 3
  rows : Nat := 3
  includeHead : Bool := true
  includeFoot : Bool := false
  wrapInSection : Bool := false
  tableClass : String := ""
  theadClass : String := ""
  tbodyClass : String := ""
  tfootClass : String := ""
  cellClass : String := ""
  rowClass : String := ""
  useThInHead : Bool := true
  addAriaRole : Bool := true
  csvData : Option (List (List String)) := none
  csvHasHeaderRow : Bool := true
  useSpanFallback : Bool := false
deriving Repr, DecidableEq

/-- `effectiveCols`: with a grid, the max row length (`Math.max(...)`,
with 0 rather than `-Infinity` for an empty grid — both yield zero cells). -/
def effectiveCols (cfg : Config) : Nat :=
  match cfg.csvData with
  | some d => (d.map List.length).foldl Nat.max 0
  | none => cfg.cols

/-- `effectiveRows`: with a grid, its length minus the designated header row
(clamped at 0), else the manual row count. -/
def effectiveRows (cfg : Config) : Nat :=
  match cfg.csvData with
  | some d => if cfg.csvHasHeaderRow then d.length - 1 else d.length
  | none => cfg.rows

/-- The `x ? [x] : []` idiom used for every class-list argument. -/
def listOfClass (s : String) : List String := if s = "" then [] else [s]

/-- The cell tag choice in `makeRow`. -/
def cellTagOf (cfg : Config) (sectionTag : String) : String :=
  if sectionTag == "thead" && cfg.useThInHead then "th" else "td"

/-- The `sourceRow` selection in `makeRow`: body rows skip the designated
header row; head and foot rows read the row at their own index. -/
def sourceRowOf (cfg : Config) (sectionTag : String) (rIndex : Nat) :
    Option (List String) :=
  match cfg.csvData with
  | none => none
  | some d =>
    if cfg.csvHasHeaderRow && sectionTag == "tbody" then d.get? (rIndex + 1)
    else d.get? rIndex

/-- The `cellCount` in `makeRow`. -/
def cellCountOf (cfg : Config) : Nat :=
  match cfg.csvData with
  | some _ => effectiveCols cfg
  | none => cfg.cols

/-- The number of body rows the builder creates. -/
def bodyCountOf (cfg : Config) : Nat :=
  match cfg.csvData with
  | some _ => effectiveRows cfg
  | none => cfg.rows

/-- The `textValue` computed for one cell: the source cell, or `""` when the
source row is missing or too short, or when there is no grid at all. -/
def cellTextValue (cfg : Config) (sourceRow : Option (List String)) (c : Nat) : String :=
  match cfg.csvData, sourceRow with
  | some _, some srow => srow.getD c ""
  | _, _ => ""

/-- One cell of `makeRow`: the `td`/`th` element and, when a grid is present,
its text node — wrapped in a `span` element iff `useSpanFallback`.  Returns
the cell id, the nodes in `push` order, and the updated state. -/
def makeCell (cfg : Config) (cellTag : String) (sourceRow : Option (List String))
    (c : Nat) (st : BuildState) : Nat × List Node × BuildState :=
  let rCls := classIds (listOfClass cfg.cellClass) st
  let rId := freshId rCls.2
  let cellId := rId.1
  let textValue := cellTextValue cfg sourceRow c
  match cfg.csvData with
  | none => (cellId, [makeDomNode cellId cellTag rCls.1 []], rId.2)
  | some _ =>
    if cfg.useSpanFallback then
      let rSpan := freshId rId.2
      let rTn := freshId rSpan.2
      (cellId,
        [{ makeDomNode cellId cellTag rCls.1 [] with children := [rSpan.1] },
         { makeDomNode rSpan.1 "span" [] [] with children := [rTn.1] },
         makeTextNode rTn.1 textValue], rTn.2)
    else
      let rTn := freshId rId.2
      (cellId,
        [{ makeDomNode cellId cellTag rCls.1 [] with children := [rTn.1] },
         makeTextNode rTn.1 textValue], rTn.2)

/-- The `for (let c = 0; c < cellCount; c++)` loop of `makeRow`. -/
def makeCells (cfg : Config) (cellTag : String) (sourceRow : Option (List String)) :
    Nat → Nat → BuildState → List Nat × List Node × BuildState
  | 0, _, st => ([], [], st)
  | m + 1, c, st =>
    let r1 := makeCell cfg cellTag sourceRow c st
    let r2 := makeCells cfg cellTag sourceRow m (c + 1) r1.2.2
    (r1.1 :: r2.1, r1.2.1 ++ r2.2.1, r2.2.2)

/-- `makeRow(sectionTag, rIndex)` of App.jsx: a `tr` element whose children
are the cells produced by the loop.  The `tr` is pushed before its cells. -/
def makeRow (cfg : Config) (sectionTag : String) (rIndex : Nat) (st : BuildState) :
    Nat × List Node × BuildState :=
  let rCls := classIds (listOfClass cfg.rowClass) st
  let rId := freshId rCls.2
  let cells := makeCells cfg (cellTagOf cfg sectionTag)
    (sourceRowOf cfg sectionTag rIndex) (cellCountOf cfg) 0 rId.2
  (rId.1,
    { makeDomNode rId.1 "tr" rCls.1 [] with children := cells.1 } :: cells.2.1,
    cells.2.2)

/-- The `thead` section: one header row. -/
def makeHead (cfg : Config) (st : BuildState) : Nat × List Node × BuildState :=
  let rCls := classIds (listOfClass cfg.theadClass) st
  let rId := freshId rCls.2
  let row := makeRow cfg "thead" 0 rId.2
  (rId.1,
    { makeDomNode rId.1 "thead" rCls.1 [] with children := [row.1] } :: row.2.1,
    row.2.2)

/-- The `for (let r = 0; r < bodyRowCount; r++)` loop building body rows. -/
def makeBodyRows (cfg : Config) :
    Nat → Nat → BuildState → List Nat × List Node × BuildState
  | 0, _, st => ([], [], st)
  | m + 1, r, st =>
    let r1 := makeRow cfg "tbody" r st
    let r2 := makeBodyRows cfg m (r + 1) r1.2.2
    (r1.1 :: r2.1, r1.2.1 ++ r2.2.1, r2.2.2)

/-- The `tbody` section with `effectiveRows` body rows. -/
def makeBody (cfg : Config) (st : BuildState) : Nat × List Node × BuildState :=
  let rCls := classIds (listOfClass cfg.tbodyClass) st
  let rId := freshId rCls.2
  let rws := makeBodyRows cfg (bodyCountOf cfg) 0 rId.2
  (rId.1,
    { makeDomNode rId.1 "tbody" rCls.1 [] with children := rws.1 } :: rws.2.1,
    rws.2.2)

/-- The `tfoot` section: one footer row, built by `makeRow("tfoot", 0)`. -/
def makeFoot (cfg : Config) (st : BuildState) : Nat × List Node × BuildState :=
  let rCls := classIds (listOfClass cfg.tfootClass) st
  let rId := freshId rCls.2
  let row := makeRow cfg "tfoot" 0 rId.2
  (rId.1,
    { makeDomNode rId.1 "tfoot" rCls.1 [] with children := [row.1] } :: row.2.1,
    row.2.2)

/-- The client-first wrapper chain (`wrapInSection`): five nested `div`s, each
holding one preset class, the innermost wrapping the table. -/
def makeWrap (tableId : Nat) (st : BuildState) : List Node × BuildState :=
  let c1 := classIds ["section_table"] st
  let i1 := freshId c1.2
  let c2 := classIds ["padding-global"] i1.2
  let i2 := freshId c2.2
  let c3 := classIds ["container-large"] i2.2
  let i3 := freshId c3.2
  let c4 := classIds ["padding-section-medium"] i3.2
  let i4 := freshId c4.2
  let c5 := classIds ["table_component"] i4.2
  let i5 := freshId c5.2
  ([{ makeDomNode i1.1 "div" c1.1 [] with children := [i2.1] },
    { makeDomNode i2.1 "div" c2.1 [] with children := [i3.1] },
    { makeDomNode i3.1 "div" c3.1 [] with children := [i4.1] },
    { makeDomNode i4.1 "div" c4.1 [] with children := [i5.1] },
    { makeDomNode i5.1 "div" c5.1 [] with children := [tableId] }], i5.2)

/-- The id list contributed by an optional section (its section-node id). -/
def optIds (p : Option (Nat × List Node)) : List Nat :=
  match p with
  | some hp => [hp.1]
  | none => []

/-- The node list contributed by an optional section. -/
def optNs (p : Option (Nat × List Node)) : List Node :=
  match p with
  | some hp => hp.2
  | none => []

/-- The payload of the envelope: the `nodes` and `styles` arrays.  The
constant envelope fields (`assets`, `ix1`, `ix2`, the all-zero `meta`
counters and the `@webflow/XscpData` type tag) carry no content. -/
structure Payload where
  nodes : List Node
  styles : List Style
deriving Repr, DecidableEq

/-- The `built` memo of App.jsx: build the table, optional `thead`, `tbody`,
optional `tfoot`, attach them in the fixed head–body–foot order, and
optionally synthesize the wrapper chain.  The returned node list follows the
JS `push` order (mutated nodes appear at their original positions). -/
def build (cfg : Config) : Payload :=
  let st0 : BuildState := ⟨[], [], 0⟩
  let tableAttrs := if cfg.addAriaRole then [("role", "table")] else []
  let rTableCls := classIds (listOfClass cfg.tableClass) st0
  let rTableId := freshId rTableCls.2
  let tableId := rTableId.1
  let headPart :=
    if cfg.includeHead then
      let r := makeHead cfg rTableId.2
      (some (r.1, r.2.1), r.2.2)
    else (none, rTableId.2)
  let bodyPart := makeBody cfg headPart.2
  let footPart :=
    if cfg.includeFoot then
      let r := makeFoot cfg bodyPart.2.2
      (some (r.1, r.2.1), r.2.2)
    else (none, bodyPart.2.2)
  let tableChildren := optIds headPart.1 ++ [bodyPart.1] ++ optIds footPart.1
  let wrapPart :=
    if cfg.wrapInSection then makeWrap tableId footPart.2
    else ([], footPart.2)
  { nodes := { makeDomNode tableId "table" rTableCls.1 tableAttrs with
        children := tableChildren } ::
      (optNs headPart.1 ++ bodyPart.2.1 ++ optNs footPart.1 ++ wrapPart.1),
    styles := wrapPart.2.styles }

/-! ## Graph extractor (`table-preview.tsx` lines 52–133) -/

/-- `normalizeTag(node)`: `data.tag` first, the top-level `tag` second,
lowercased; empty for text nodes. -/
def normalizeTag (n : Node) : String :=
  toLowerStr (if n.dataTag ≠ "" then n.dataTag else n.tag)

/-- The `indexById` map: `Map.set` keeps the last node per id, so lookup
finds the last occurrence. -/
def indexById (nodes : List Node) (i : Nat) : Option Node :=
  nodes.reverse.find? (fun n => n._id == i)

/-- `getTextFromNode`: depth-first search returning the first non-empty text
value.  The JS recursion is unbounded; `fuel` bounds it here and is
instantiated at call sites with more than the graph depth. -/
def getTextFromNode (nodes : List Node) : Nat → Option Node → String
  | _, none => ""
  | 0, some _ => ""
  | fuel + 1, some n =>
    if n.text then n.v
    else n.children.foldl
      (fun acc cid =>
        if acc ≠ "" then acc else getTextFromNode nodes fuel (indexById nodes cid))
      ""

/-- `readSectionRows(section)`: the `tr` children of the section, and per
row its `td`/`th` children's recovered texts. -/
def readSectionRows (nodes : List Node) : Option Node → List (List String)
  | none => []
  | some s =>
    let trNodes := ((s.children.map (indexById nodes)).filterMap id).filter
      (fun n => normalizeTag n == "tr")
    trNodes.map (fun tr =>
      let cellNodes := ((tr.children.map (indexById nodes)).filterMap id).filter
        (fun n => normalizeTag n == "td" || normalizeTag n == "th")
      cellNodes.map (fun cell => getTextFromNode nodes (nodes.length + 1) (some cell)))

/-- Result of a successful extraction. -/
structure ExtractResult where
  rows : List (List String)
  hasHeader : Bool
deriving Repr, DecidableEq

/-- `extractRowsFromXscp(json)` of table-preview.tsx.  The input is the
parse result of the envelope: `none` models an unparseable envelope or a
missing payload (`payload?.nodes || []` then yields no nodes).  Footer rows
are parsed but never included in the result. -/
def extractRowsFromXscp (inp : Option (List Node)) : Option ExtractResult :=
  match inp with
  | none => none
  | some nodes =>
    if nodes.isEmpty then none
    else
      match nodes.find? (fun n => normalizeTag n == "table") with
      | none => none
      | some tableNode =>
        let tableChildren := (tableNode.children.map (indexById nodes)).filterMap id
        let thead := tableChildren.find? (fun n => normalizeTag n == "thead")
        let tbody := tableChildren.find? (fun n => normalizeTag n == "tbody")
        let headRows := readSectionRows nodes thead
        let bodyRows := readSectionRows nodes tbody
        let hasHeader := headRows.length > 0
        some { rows := if hasHeader then headRows ++ bodyRows else bodyRows,
               hasHeader := hasHeader }

/-- The `footerRows` computed (and then ignored) by the extractor: the
`tfoot` section of the first table, read exactly like the other sections. -/
def footerRowsOf (nodes : List Node) : List (List String) :=
  match nodes.find? (fun n => normalizeTag n == "table") with
  | none => []
  | some tableNode =>
    let tableChildren := (tableNode.children.map (indexById nodes)).filterMap id
    readSectionRows nodes (tableChildren.find? (fun n => normalizeTag n == "tfoot"))

/-! ## Tree traversal engine (`DomTreePreview` / `DomNodeItem`, App.jsx 27–216) -/

/-- Contiguous-sublist test (used to model `String.prototype.includes`). -/
def subListOf (sub : List Char) : List Char → Bool
  | [] => sub.isEmpty
  | c :: rest => sub.isPrefixOf (c :: rest) || subListOf sub rest

/-- `String.prototype.includes`. -/
def strIncludes (hay sub : String) : Bool := subListOf sub.data hay.data

/-- The `classNameById` map (`Map.set` keeps the last style per id). -/
def classNameById (styles : List Style) (sid : Nat) : Option String :=
  (styles.reverse.find? (fun s => s._id == sid)).map (fun s => s.name)

/-- The match condition of `DomTreePreview`: lowercased tag or any resolved
lowercased class name contains the (already trimmed and lowercased) query. -/
def nodeMatches (styles : List Style) (q : String) (n : Node) : Bool :=
  let tag := toLowerStr (if n.dataTag ≠ "" then n.dataTag else n.tag)
  let classNames := n.classes.map
    (fun cid => (((classNameById styles cid).map toLowerStr)).getD "")
  strIncludes tag q || classNames.any (fun cn => strIncludes cn q)

/-- The match set: empty for a blank query, else the ids of matching nodes. -/
def matchSet (nodes : List Node) (styles : List Style) (searchQuery : String) :
    List Nat :=
  let q := toLowerStr (trimStr searchQuery)
  if q = "" then [] else (nodes.filter (nodeMatches styles q)).map (fun n => n._id)

/-- The `parentById` map: last `Map.set` wins, so the parent of `c` is the
last node listing `c` among its children. -/
def parentById (nodes : List Node) (c : Nat) : Option Nat :=
  (nodes.reverse.find? (fun n => n.children.contains c)).map (fun n => n._id)

/-- The upward walk of the ancestor computation: add ancestors until a known
one or a missing parent; fuel bounds the loop (the JS loop stops on revisits,
so `nodes.length + 1` steps always suffice). -/
def climb (nodes : List Node) : Nat → List Nat → Option Nat → List Nat
  | 0, s, _ => s
  | _, s, none => s
  | fuel + 1, s, some c =>
    if s.contains c then s else climb nodes fuel (s ++ [c]) (parentById nodes c)

/-- The ancestor set: walk upward from every match. -/
def ancestorSet (nodes : List Node) (styles : List Style) (searchQuery : String) :
    List Nat :=
  (matchSet nodes styles searchQuery).foldl
    (fun s mid => climb nodes (nodes.length + 1) s (parentById nodes mid)) []

/-- The per-node open/closed decision of `DomNodeItem` (its `useEffect`):
`all` opens, `collapse` closes, anything else (the `auto` mode) opens
matches, ancestors of matches, and depth-0 roots. -/
def nodeOpen (expandMode : String) (isMatch isAncestorOfMatch : Bool)
    (depth : Nat) : Bool :=
  if expandMode = "all" then true
  else if expandMode = "collapse" then false
  else isMatch || isAncestorOfMatch || decide (depth < 1)

/-- The decision for one rendered node: the membership tests feeding
`DomNodeItem`. -/
def nodeOpenFor (nodes : List Node) (styles : List Style) (searchQuery : String)
    (expandMode : String) (n : Node) (depth : Nat) : Bool :=
  nodeOpen expandMode ((matchSet nodes styles searchQuery).contains n._id)
    ((ancestorSet nodes styles searchQuery).contains n._id) depth

/-! ## Derived notions used only in statements and proofs -/

/-- Ids of a node list. -/
def idsOf (ns : List Node) : List Nat := ns.map (fun n => n._id)

/-- All ids of a block are fresh (in `[lo, hi)`) and strictly increasing in
emission order. -/
def IncrRange (lo hi : Nat) (ns : List Node) : Prop :=
  List.Pairwise (· < ·) (idsOf ns) ∧ ∀ n ∈ ns, lo ≤ n._id ∧ n._id < hi

/-- Every child reference inside the block stays inside the block. -/
def ClosedBlock (ns : List Node) : Prop :=
  ∀ n ∈ ns, ∀ c ∈ n.children, c ∈ idsOf ns

/-- Shape of one built cell's content, relative to an ambient node list:
no grid means no children at all; a grid means a text node holding `txt`,
reached directly or through one `span`. -/
def CellAt (cfg : Config) (ns : List Node) (cell : Node) (txt : String) : Prop :=
  (cfg.csvData = none ∧ cell.children = [] ∧ txt = "") ∨
  ((∃ d, cfg.csvData = some d) ∧ cfg.useSpanFallback = false ∧
    ∃ tn ∈ ns, cell.children = [tn._id] ∧ tn.text = true ∧ tn.v = txt) ∨
  ((∃ d, cfg.csvData = some d) ∧ cfg.useSpanFallback = true ∧
    ∃ sp ∈ ns, sp.text = false ∧ sp.dataTag = "span" ∧ cell.children = [sp._id] ∧
      ∃ tn ∈ ns, sp.children = [tn._id] ∧ tn.text = true ∧ tn.v = txt)

/-- Shape of a built cell sequence starting at column `c`. -/
def CellsSpec (cfg : Config) (tag : String) (srow : Option (List String))
    (ns : List Node) : List Node → Nat → Prop
  | [], _ => True
  | cell :: rest, c =>
    cell.text = false ∧ cell.tag = "div" ∧ cell.dataTag = tag ∧
      CellAt cfg ns cell (cellTextValue cfg srow c) ∧
      CellsSpec cfg tag srow ns rest (c + 1)

/-- Shape of a built row sequence (`tr` nodes) starting at row `r`. -/
def RowsSpec (cfg : Config) (sectionTag : String) (ns : List Node) :
    List Node → Nat → Prop
  | [], _ => True
  | tr :: rest, r =>
    tr.text = false ∧ tr.tag = "div" ∧ tr.dataTag = "tr" ∧
      (∃ cells, (∀ x ∈ cells, x ∈ ns) ∧ tr.children = idsOf cells ∧
        cells.length = cellCountOf cfg ∧
        CellsSpec cfg (cellTagOf cfg sectionTag) (sourceRowOf cfg sectionTag r)
          ns cells 0) ∧
      RowsSpec cfg sectionTag ns rest (r + 1)

/-- What each section builder returns: the section node heads its block,
it carries its row list, and the rows satisfy `RowsSpec`. -/
def SectionParts (cfg : Config) (sectionTag : String) (ns : List Node)
    (sid : Nat) (count : Nat) : Prop :=
  ∃ sec, ns.head? = some sec ∧ sec._id = sid ∧ sec.text = false ∧
    sec.dataTag = sectionTag ∧
    ∃ trs, (∀ x ∈ trs, x ∈ ns) ∧ sec.children = idsOf trs ∧ trs.length = count ∧
      RowsSpec cfg sectionTag ns trs 0

/-- Nodes a grid-less build may contain: no text nodes, no spans, and no
cell with children. -/
def PlainBlock (ns : List Node) : Prop :=
  ∀ n ∈ ns, n.text = false ∧ n.dataTag ≠ "span" ∧
    ((n.dataTag = "td" ∨ n.dataTag = "th") → n.children = [])

/-- A section node of a built graph: resolvable by id, carrying `count`
rows that satisfy `RowsSpec` from row index 0. -/
def SectionAt (cfg : Config) (NS : List Node) (tag : String) (sid : Nat)
    (count : Nat) : Prop :=
  ∃ sec, indexById NS sid = some sec ∧ sec.text = false ∧ sec.dataTag = tag ∧
    ∃ trs, (∀ x ∈ trs, x ∈ NS) ∧ sec.children = idsOf trs ∧ trs.length = count ∧
      RowsSpec cfg tag NS trs 0

/-- Everything the claims need to know about a built node list. -/
def BuildShape (cfg : Config) (NS : List Node) : Prop :=
  (idsOf NS).Nodup ∧ ClosedBlock NS ∧ (cfg.csvData = none → PlainBlock NS) ∧
  2 ≤ NS.length ∧
  ∃ table, NS.head? = some table ∧ table.text = false ∧ table.dataTag = "table" ∧
    ∃ bid hPart fPart,
      SectionAt cfg NS "tbody" bid (bodyCountOf cfg) ∧
      ((hPart : Option Nat).isSome ↔ cfg.includeHead = true) ∧
      ((fPart : Option Nat).isSome ↔ cfg.includeFoot = true) ∧
      table.children = hPart.toList ++ [bid] ++ fPart.toList ∧
      (∀ hid ∈ hPart, SectionAt cfg NS "thead" hid 1) ∧
      (∀ fid ∈ fPart, SectionAt cfg NS "tfoot" fid 1)

/-- The texts the extractor recovers from one built cell sequence. -/
def cellTexts (cfg : Config) (srow : Option (List String)) : Nat → Nat → List String
  | 0, _ => []
  | m + 1, c => cellTextValue cfg srow c :: cellTexts cfg srow m (c + 1)

/-- The texts the extractor recovers from one built row. -/
def rowTexts (cfg : Config) (sectionTag : String) (r : Nat) : List String :=
  cellTexts cfg (sourceRowOf cfg sectionTag r) (cellCountOf cfg) 0

/-- The texts the extractor recovers from a run of rows of one section. -/
def sectionTexts (cfg : Config) (sectionTag : String) : Nat → Nat → List (List String)
  | 0, _ => []
  | m + 1, r => rowTexts cfg sectionTag r :: sectionTexts cfg sectionTag m (r + 1)

/-- The row grid the extractor recovers from a full build. -/
def expectedRows (cfg : Config) : List (List String) :=
  (if cfg.includeHead then [rowTexts cfg "thead" 0] else []) ++
    sectionTexts cfg "tbody" (bodyCountOf cfg) 0

/-- Configuration of the style-dedup example (tableClass `"a a b"`). -/
def cfgStyleDedup : Config :=
  { cols := 1, rows := 1, includeHead := false, tableClass := "a a b" }

/-- Configuration refuting the unrestricted round-trip claim: a ragged grid. -/
def cfgRagged : Config :=
  { csvData := some [["a", "b"], ["c"]], csvHasHeaderRow := false,
    includeHead := false, includeFoot := false, useSpanFallback := false }

/-- Configuration exhibiting footer-cell content: grid `[["x"]]`, footer on. -/
def cfgFoot : Config :=
  { csvData := some [["x"]], csvHasHeaderRow := false, includeHead := false,
    includeFoot := true, useSpanFallback := false }

/-- Configuration of the round-trip witness: a rectangular 2-by-2 grid with a
designated header row mirrored by the header flag. -/
def cfgRt : Config :=
  { csvData := some [["a", "b"], ["c", "d"]], csvHasHeaderRow := true,
    includeHead := true, includeFoot := false, useSpanFallback := false }

/-- A small grid-less configuration: one column, one row, default header. -/
def cfgBlank : Config := { cols := 1, rows := 1 }

/-! # Theorems -/

example : parseCSV "a,b\nc,d\n" = [["a", "b"], ["c", "d"]] := by decide
example : parseCSV "" = [] := by decide
example : parseCSV "\"a\"\"b\",c" = [["a\"b", "c"]] := by decide
example : stringifyCSV [["a", "b"], ["c", "d"]] = "a,b\nc,d" := by decide
example : stringifyCSV [["a\"b"]] = "\"a\"\"b\"" := by decide
example : parseCSV (stringifyCSV [["a"], [""]]) = [["a"]] := by decide

/-! ### Single-step reduction lemmas for the parser state machine -/

theorem parseCSVAux_escq (rest rows row field) :
    parseCSVAux ('"' :: '"' :: rest) true rows row field =
      parseCSVAux rest true rows row (field ++ ['"']) := rfl

theorem parseCSVAux_closeq {rest : List Char} (h : rest.head? ≠ some '"') (rows row field) :
    parseCSVAux ('"' :: rest) true rows row field =
      parseCSVAux rest false rows row field := by
  cases rest with
  | nil => rfl
  | cons x xs =>
    have hx : x ≠ '"' := by simpa using h
    simp [parseCSVAux, hx]

theorem parseCSVAux_inq {c : Char} (h : c ≠ '"') (rest rows row field) :
    parseCSVAux (c :: rest) true rows row field =
      parseCSVAux rest true rows row (field ++ [c]) := by
  simp [parseCSVAux, h]

theorem parseCSVAux_openq (rest rows row field) :
    parseCSVAux ('"' :: rest) false rows row field =
      parseCSVAux rest true rows row field := by
  cases rest with
  | nil => rfl
  | cons x xs => by_cases hx : x = '"' <;> simp [parseCSVAux, hx]

theorem parseCSVAux_comma (rest rows row field) :
    parseCSVAux (',' :: rest) false rows row field =
      parseCSVAux rest false rows (row ++ [String.mk field]) [] := rfl

theorem parseCSVAux_newline (rest rows row field) :
    parseCSVAux ('\n' :: rest) false rows row field =
      parseCSVAux rest false (rows ++ [row ++ [String.mk field]]) [] [] := rfl

theorem parseCSVAux_other {c : Char} (h1 : c ≠ '"') (h2 : c ≠ ',') (h3 : c ≠ '\n')
    (h4 : c ≠ '\r') (rest rows row field) :
    parseCSVAux (c :: rest) false rows row field =
      parseCSVAux rest false rows row (field ++ [c]) := by
  simp [parseCSVAux, h1, h2, h3, h4]

theorem parseCSVAux_nil (q rows row field) :
    parseCSVAux [] q rows row field =
      (if (row ++ [String.mk field]).length > 1 ∨ (row ++ [String.mk field]).headD "" ≠ ""
       then rows ++ [row ++ [String.mk field]] else rows) := rfl

/-! ### Round-trip lemmas: a stringified cell/row/grid is consumed exactly -/

theorem escapeQuotes_eq_self {s : List Char} (h : ∀ c ∈ s, c ≠ '"') :
    escapeQuotes s = s := by
  induction s with
  | nil => rfl
  | cons c cs ih =>
    rw [escapeQuotes, if_neg (h c (List.mem_cons_self c cs)),
      ih fun x hx => h x (List.mem_cons_of_mem c hx)]

theorem parseCSVAux_plain {s : List Char}
    (h : ∀ c ∈ s, c ≠ '"' ∧ c ≠ ',' ∧ c ≠ '\n' ∧ c ≠ '\r') :
    ∀ rest rows row field, parseCSVAux (s ++ rest) false rows row field =
      parseCSVAux rest false rows row (field ++ s) := by
  induction s with
  | nil => intro rest rows row field; simp
  | cons c cs ih =>
    intro rest rows row field
    obtain ⟨h1, h2, h3, h4⟩ := h c (List.mem_cons_self c cs)
    rw [List.cons_append, parseCSVAux_other h1 h2 h3 h4,
      ih (fun x hx => h x (List.mem_cons_of_mem c hx))]
    simp

theorem parseCSVAux_quoted {s : List Char} :
    ∀ {rest : List Char}, rest.head? ≠ some '"' → ∀ rows row field,
    parseCSVAux (escapeQuotes s ++ ('"' :: rest)) true rows row field =
      parseCSVAux rest false rows row (field ++ s) := by
  induction s with
  | nil =>
    intro rest hr rows row field
    simpa using parseCSVAux_closeq hr rows row field
  | cons c cs ih =>
    intro rest hr rows row field
    by_cases hc : c = '"'
    · subst hc
      rw [escapeQuotes, if_pos rfl]
      rw [List.cons_append, List.cons_append, parseCSVAux_escq, ih hr]
      simp
    · rw [escapeQuotes, if_neg hc, List.cons_append, parseCSVAux_inq hc, ih hr]
      simp

theorem data_append (a b : String) : (a ++ b).data = a.data ++ b.data := rfl

theorem mk_data (s : String) : String.mk s.data = s := rfl

theorem needsQuote_false_iff (cell : String) :
    needsQuote cell = false ↔
      ∀ c ∈ cell.data, c ≠ '"' ∧ c ≠ ',' ∧ c ≠ '\n' ∧ c ≠ '\r' := by
  constructor
  · intro h c hc
    by_contra hcon
    simp only [not_and_or, not_not] at hcon
    have htrue : needsQuote cell = true := by
      rw [needsQuote, List.any_eq_true]
      refine ⟨c, hc, ?_⟩
      rcases hcon with h1 | h1 | h1 | h1 <;> simp [h1]
    rw [htrue] at h
    simp at h
  · intro h
    cases hng : needsQuote cell with
    | false => rfl
    | true =>
      rw [needsQuote, List.any_eq_true] at hng
      obtain ⟨c, hc, hp⟩ := hng
      obtain ⟨h1, h2, h3, h4⟩ := h c hc
      simp [h1, h2, h3, h4] at hp

theorem parseCSVAux_cell (cell : String) {rest : List Char} (hr : rest.head? ≠ some '"')
    (rows row field) :
    parseCSVAux ((encodeCell cell).data ++ rest) false rows row field =
      parseCSVAux rest false rows row (field ++ cell.data) := by
  by_cases hq : needsQuote cell
  · have hdata : (encodeCell cell).data =
        '"' :: (escapeQuotes cell.data ++ ['"']) := by
      simp [encodeCell, hq, data_append]
    rw [hdata]
    rw [List.cons_append, List.append_assoc]
    rw [parseCSVAux_openq]
    simpa using parseCSVAux_quoted hr rows row field
  · have hplain := (needsQuote_false_iff cell).mp (by simpa using hq)
    have hdata : (encodeCell cell).data = cell.data := by
      simp [encodeCell, hq, escapeQuotes_eq_self fun c hc => (hplain c hc).1]
    rw [hdata, parseCSVAux_plain hplain]

theorem dropLast_append_lastD {α : Type} (d : α) :
    ∀ (l : List α), l ≠ [] → l.dropLast ++ [l.getLast?.getD d] = l
  | [_], _ => rfl
  | x :: y :: t, _ => by
      have htail := dropLast_append_lastD d (y :: t) (by simp)
      simp only [List.dropLast_cons₂, List.getLast?_cons_cons, List.cons_append, htail]

theorem parseCSVAux_rowline (r : List String) (hne : r ≠ []) :
    ∀ {rest : List Char}, rest.head? ≠ some '"' → ∀ rows row,
    parseCSVAux ((joinSep "," (r.map encodeCell)).data ++ rest) false rows row [] =
      parseCSVAux rest false rows (row ++ r.dropLast) (r.getLast?.getD "").data := by
  induction r with
  | nil => exact absurd rfl hne
  | cons c cs ih =>
    intro rest hr rows row
    cases cs with
    | nil =>
      simp only [List.map_cons, List.map_nil, joinSep]
      rw [parseCSVAux_cell c hr]
      simp
    | cons c2 cs2 =>
      have hjoin : joinSep "," ((c :: c2 :: cs2).map encodeCell) =
          encodeCell c ++ "," ++ joinSep "," ((c2 :: cs2).map encodeCell) := by
        simp [joinSep]
      rw [hjoin]
      have hdata : (encodeCell c ++ "," ++ joinSep "," ((c2 :: cs2).map encodeCell)).data =
          (encodeCell c).data ++ (',' :: (joinSep "," ((c2 :: cs2).map encodeCell)).data) := by
        simp [data_append]
      rw [hdata, List.append_assoc, parseCSVAux_cell c (by simp)]
      rw [List.nil_append, List.cons_append, parseCSVAux_comma, mk_data]
      rw [ih (by simp) hr]
      rw [List.dropLast_cons₂, List.getLast?_cons_cons]
      simp

theorem parseCSVAux_grid (g : List (List String)) (hg : g ≠ []) :
    ∀ {rest : List Char}, rest.head? ≠ some '"' → ∀ rows,
    (∀ r ∈ g, r ≠ []) →
    parseCSVAux ((joinSep "\n" (g.map (fun r => joinSep "," (r.map encodeCell)))).data
        ++ rest) false rows [] [] =
      parseCSVAux rest false (rows ++ g.dropLast) ((g.getLast?.getD []).dropLast)
        ((g.getLast?.getD []).getLast?.getD "").data := by
  induction g with
  | nil => exact absurd rfl hg
  | cons r g' ih =>
    intro rest hr rows hrows
    cases g' with
    | nil =>
      simp only [List.map_cons, List.map_nil, joinSep]
      rw [parseCSVAux_rowline r (hrows r (by simp)) hr]
      simp
    | cons r2 g2 =>
      have hjoin : joinSep "\n" ((r :: r2 :: g2).map (fun r => joinSep "," (r.map encodeCell))) =
          joinSep "," (r.map encodeCell) ++ "\n" ++
            joinSep "\n" ((r2 :: g2).map (fun r => joinSep "," (r.map encodeCell))) := by
        simp [joinSep]
      rw [hjoin]
      have hdata : (joinSep "," (r.map encodeCell) ++ "\n" ++
          joinSep "\n" ((r2 :: g2).map (fun r => joinSep "," (r.map encodeCell)))).data =
          (joinSep "," (r.map encodeCell)).data ++
            ('\n' :: (joinSep "\n" ((r2 :: g2).map (fun r => joinSep "," (r.map encodeCell)))).data) := by
        simp [data_append]
      rw [hdata, List.append_assoc, parseCSVAux_rowline r (hrows r (by simp)) (by simp)]
      rw [List.cons_append, parseCSVAux_newline, mk_data]
      rw [List.nil_append, dropLast_append_lastD "" r (hrows r (by simp))]
      rw [ih (by simp) hr _ (fun x hx => hrows x (List.mem_cons_of_mem r hx))]
      rw [List.dropLast_cons₂, List.getLast?_cons_cons]
      simp

/-- Flushing the final state of the parser after a full grid: the last row is
kept iff it is not the single empty field. -/
theorem parseCSV_stringifyCSV_aux (g : List (List String)) (hg : g ≠ [])
    (hrows : ∀ r ∈ g, r ≠ []) (hlast : g.getLast? ≠ some [""]) :
    parseCSV (stringifyCSV g) = g := by
  have hr : (([] : List Char)).head? ≠ some '"' := by simp
  have hmain := parseCSVAux_grid g hg hr [] hrows
  rw [List.append_nil] at hmain
  rw [parseCSV, stringifyCSV, hmain, parseCSVAux_nil]
  obtain ⟨l, hgl⟩ : ∃ l, g.getLast? = some l :=
    ⟨g.getLast hg, List.getLast?_eq_getLast_of_ne_nil hg⟩
  have hlmem : l ∈ g := by
    obtain ⟨h, hxe⟩ := List.mem_getLast?_eq_getLast (Option.mem_def.mpr hgl)
    rw [hxe]
    exact List.getLast_mem h
  have hlne : l ≠ [] := hrows l hlmem
  have hlne1 : l ≠ [""] := fun hcon => hlast (by rw [hgl, hcon])
  rw [hgl]
  simp only [Option.getD_some]
  rw [mk_data, dropLast_append_lastD "" l hlne]
  have hcond : l.length > 1 ∨ l.headD "" ≠ "" := by
    rcases l with _ | ⟨x, _ | ⟨y, t⟩⟩
    · exact absurd rfl hlne
    · right
      intro hx
      apply hlne1
      simp only [List.headD_cons] at hx
      rw [hx]
    · left; simp
  rw [if_pos hcond, List.nil_append]
  have hfin := dropLast_append_lastD [] g hg
  rw [hgl] at hfin
  simpa using hfin

/-! ### Claim C3: CSV round-trip -/

/-- C3 (amended).  `parse(stringify(g)) = g` for every grid of strings whose
rows are all nonempty and whose final row is not the single empty field
`[""]`; in the excluded cases the parser's trailing-empty-row suppression
drops the final row. -/
theorem csv_roundtrip (g : List (List String)) (h1 : ∀ r ∈ g, r ≠ [])
    (h2 : g.getLast? ≠ some [""]) : parseCSV (stringifyCSV g) = g := by
  cases g with
  | nil => decide
  | cons r g' => exact parseCSV_stringifyCSV_aux (r :: g') (by simp) h1 h2

/-- C3 witness: the round trip at the concrete grid `[["a","b"],["c"]]`. -/
theorem csv_roundtrip_witness :
    (∀ r ∈ [["a", "b"], ["c"]], r ≠ ([] : List String)) ∧
    ([["a", "b"], ["c"]] : List (List String)).getLast? ≠ some [""] ∧
    parseCSV (stringifyCSV [["a", "b"], ["c"]]) = [["a", "b"], ["c"]] :=
  ⟨by decide, by decide, csv_roundtrip [["a", "b"], ["c"]] (by decide) (by decide)⟩

/-- C3 counterexample: the claim as stated fails for the grid
`[["a"],[""]]` — all cells are non-null strings and the grid is not the
empty-grid edge case, yet parsing the serialization drops the final row. -/
theorem csv_roundtrip_counterexample :
    parseCSV (stringifyCSV [["a"], [""]]) ≠ [["a"], [""]] := by decide

/-! ### Claim C9: quoting discipline of `stringifyCSV` -/

/-- C9 (amended).  A cell is wrapped in quotes with internal quotes doubled
iff it contains a quote, comma, newline, or carriage return (the claim
omitted the carriage return); rows are joined with `"\n"` and cells with
`","`. -/
theorem stringify_quoting (cell : String) :
    (encodeCell cell =
      if cell.data.any (fun c => c == '"' || c == ',' || c == '\n' || c == '\r')
      then "\"" ++ String.mk (escapeQuotes cell.data) ++ "\"" else cell) ∧
    ∀ g, stringifyCSV g = joinSep "\n" (g.map (fun r => joinSep "," (r.map encodeCell))) := by
  refine ⟨?_, fun g => rfl⟩
  have hdef : (cell.data.any fun c => c == '"' || c == ',' || c == '\n' || c == '\r') =
      needsQuote cell := rfl
  rw [hdef]
  by_cases hq : needsQuote cell
  · simp [encodeCell, hq]
  · have hb : needsQuote cell = false := by simpa using hq
    have hplain := (needsQuote_false_iff cell).mp hb
    simp only [encodeCell, hb, if_neg, Bool.false_eq_true, if_false,
      escapeQuotes_eq_self (fun c hc => (hplain c hc).1), mk_data]

/-- C9 counterexample: a cell consisting of a carriage return contains no
quote, comma, or newline, yet `stringifyCSV` wraps it in quotes. -/
theorem stringify_quoting_counterexample :
    (∀ c ∈ ("\r" : String).data, c ≠ '"' ∧ c ≠ ',' ∧ c ≠ '\n') ∧
    encodeCell "\r" ≠ "\r" ∧ encodeCell "\r" = "\"\r\"" := by decide

/-! ### Claim C7: when the extractor reports no data -/

/-- C7.  The extractor returns `null` exactly when the envelope fails to
parse (`none` input), carries no nodes, or carries no `table`-tagged node;
otherwise it returns a rows/hasHeader result. -/
theorem extract_none_iff (inp : Option (List Node)) :
    extractRowsFromXscp inp = none ↔
      inp = none ∨ ∃ nodes, inp = some nodes ∧
        (nodes = [] ∨ ¬ ∃ n ∈ nodes, normalizeTag n = "table") := by
  cases inp with
  | none => simp [extractRowsFromXscp]
  | some nodes =>
    rw [extractRowsFromXscp]
    by_cases he : nodes.isEmpty
    · rw [if_pos he]
      simp [List.isEmpty_iff.mp he]
    · rw [if_neg he]
      have hne : nodes ≠ [] := fun hcon => he (by simp [hcon])
      cases hf : nodes.find? (fun n => normalizeTag n == "table") with
      | none =>
        have hall : ∀ n ∈ nodes, ¬ normalizeTag n = "table" := by
          intro n hn ht
          have := List.find?_eq_none.mp hf n hn
          simp [ht] at this
        constructor
        · intro _
          exact Or.inr ⟨nodes, rfl, Or.inr (by rintro ⟨n, hn, ht⟩; exact hall n hn ht)⟩
        · intro _
          rfl
      | some t =>
        have htag : normalizeTag t = "table" := by
          simpa using List.find?_some hf
        have htmem : t ∈ nodes := List.mem_of_find?_eq_some hf
        constructor
        · intro h
          exact absurd h (by simp)
        · rintro (h | ⟨ns, hns, h⟩)
          · exact absurd h (by simp)
          · obtain rfl : nodes = ns := by injection hns
            rcases h with h | h
            · exact absurd h hne
            · exact absurd ⟨t, htmem, htag⟩ h

/-! ### Claim C8: traversal open/closed decision and match set -/

/-- C8.  Per-node decision: `all` always opens, `collapse` always closes,
and `auto` opens exactly the matches, the ancestors of matches and the
depth-0 roots; a node is in the match set iff the trimmed lowercased query
is non-empty and some node with the same id matches by tag or resolved
class-name substring; a blank query yields an empty match set. -/
theorem tree_open_decision (nodes : List Node) (styles : List Style)
    (searchQuery : String) (n : Node) (depth : Nat) :
    nodeOpenFor nodes styles searchQuery "all" n depth = true ∧
    nodeOpenFor nodes styles searchQuery "collapse" n depth = false ∧
    (nodeOpenFor nodes styles searchQuery "auto" n depth = true ↔
      n._id ∈ matchSet nodes styles searchQuery ∨
      n._id ∈ ancestorSet nodes styles searchQuery ∨ depth = 0) ∧
    (n._id ∈ matchSet nodes styles searchQuery ↔
      toLowerStr (trimStr searchQuery) ≠ "" ∧
      ∃ m ∈ nodes, m._id = n._id ∧
        nodeMatches styles (toLowerStr (trimStr searchQuery)) m = true) ∧
    (toLowerStr (trimStr searchQuery) = "" → matchSet nodes styles searchQuery = []) := by
  refine ⟨?_, ?_, ?_, ?_, ?_⟩
  · simp [nodeOpenFor, nodeOpen]
  · simp [nodeOpenFor, nodeOpen]
  · simp only [nodeOpenFor, nodeOpen, if_neg (by decide : ¬("auto" = "all")),
      if_neg (by decide : ¬("auto" = "collapse")), Bool.or_eq_true,
      decide_eq_true_eq, Nat.lt_one_iff]
    constructor
    · rintro ((h | h) | h)
      · exact Or.inl (by simpa using h)
      · exact Or.inr (Or.inl (by simpa using h))
      · exact Or.inr (Or.inr h)
    · rintro (h | h | h)
      · exact Or.inl (Or.inl (by simpa using h))
      · exact Or.inl (Or.inr (by simpa using h))
      · exact Or.inr h
  · by_cases hq : toLowerStr (trimStr searchQuery) = ""
    · simp [matchSet, hq]
    · simp only [matchSet]
      rw [if_neg hq]
      simp only [List.mem_map, List.mem_filter]
      constructor
      · rintro ⟨m, ⟨hm, hmm⟩, hid⟩
        exact ⟨hq, m, hm, hid, hmm⟩
      · rintro ⟨_, m, hm, hid, hmm⟩
        exact ⟨m, ⟨hm, hmm⟩, hid⟩
  · intro hq
    simp [matchSet, hq]

/-! ### Claim C4: style dedup -/

/-- First-match lookup skips an association list without the key. -/
theorem lookup_append_of_none {l1 l2 : List (String × Nat)} {a : String}
    (h : List.lookup a l1 = none) : List.lookup a (l1 ++ l2) = List.lookup a l2 := by
  induction l1 with
  | nil => simp
  | cons p t ih =>
    obtain ⟨k, b⟩ := p
    cases hak : a == k with
    | false =>
      rw [List.cons_append, List.lookup, hak]
      rw [List.lookup, hak] at h
      exact ih h
    | true =>
      rw [List.lookup, hak] at h
      simp at h

/-- Cache-hit behavior of `ensureStyle`. -/
theorem ensureStyle_hit {name : String} {st : BuildState} {sid : Nat}
    (h : trimStr name ≠ "") (hl : List.lookup name st.styleIndex = some sid) :
    ensureStyle name st = (some sid, st) := by
  rw [ensureStyle, if_neg h, hl]

/-- Cache-miss behavior of `ensureStyle`. -/
theorem ensureStyle_miss {name : String} {st : BuildState}
    (h : trimStr name ≠ "") (hl : List.lookup name st.styleIndex = none) :
    ensureStyle name st =
      (some st.nextId,
        { styles := st.styles ++ [styleRecord name st.nextId],
          styleIndex := st.styleIndex ++ [(name, st.nextId)],
          nextId := st.nextId + 1 }) := by
  rw [ensureStyle, if_neg h, hl]

/-- C4 (amended).  `ensureStyle` is idempotent within one build: a repeated
non-blank name returns the same id, leaves the state unchanged, and the
first call appends at most one record.  Building with tableClass `"a a b"`
yields exactly the two style records `a`, `b` — but the table's `classes`
keeps the duplicate token: it has length 3 and reads `[a, a, b]` (the
claim's "length 2, order `[a, b]`" holds for the style records only). -/
theorem ensureStyle_dedup (st : BuildState) (name : String) (h : trimStr name ≠ "") :
    (ensureStyle name st).1 ≠ none ∧
    (ensureStyle name (ensureStyle name st).2).1 = (ensureStyle name st).1 ∧
    (ensureStyle name (ensureStyle name st).2).2 = (ensureStyle name st).2 ∧
    (ensureStyle name st).2.styles.length ≤ st.styles.length + 1 ∧
    ((build cfgStyleDedup).styles.map (fun s => s.name) = ["a", "b"] ∧
      (build cfgStyleDedup).styles.length = 2 ∧
      (build cfgStyleDedup).nodes.head?.map (fun n => n.classes) = some [0, 0, 1]) := by
  refine ⟨?_, ?_, ?_, ?_, by decide, by decide, by decide⟩
  all_goals cases hl : List.lookup name st.styleIndex with
  | some sid =>
    have h1 := ensureStyle_hit h hl
    simp [h1]
  | none =>
    have h1 := ensureStyle_miss h hl
    have hl2 : List.lookup name
        ((ensureStyle name st).2).styleIndex = some st.nextId := by
      rw [h1]
      rw [lookup_append_of_none hl]
      simp [List.lookup]
    have h2 := ensureStyle_hit h hl2
    simp only [h1] at h2
    simp [h2, h1]

/-- C4 witness: idempotence applied at the empty build state and name `"a"`. -/
theorem ensureStyle_dedup_witness :
    trimStr "a" ≠ "" ∧
    (ensureStyle "a" (ensureStyle "a" ⟨[], [], 0⟩).2).1 =
      (ensureStyle "a" (⟨[], [], 0⟩ : BuildState)).1 :=
  ⟨by decide, (ensureStyle_dedup ⟨[], [], 0⟩ "a" (by decide)).2.1⟩

/-- C4 counterexample: with tableClass `"a a b"` the table node's `classes`
has length 3, not 2 — `classIds` does not deduplicate the id sequence. -/
theorem ensureStyle_dedup_counterexample :
    (build cfgStyleDedup).nodes.head?.map (fun n => n.classes.length) = some 3 ∧
    (build cfgStyleDedup).nodes.head?.map (fun n => n.classes.length) ≠ some 2 := by
  decide

/-! ### Ids of built blocks: freshness, uniqueness, lookup -/

theorem mem_idsOf {ns : List Node} {c : Nat} :
    c ∈ idsOf ns ↔ ∃ n ∈ ns, n._id = c := by
  simp [idsOf]

theorem IncrRange.nil_ir {lo hi : Nat} : IncrRange lo hi [] :=
  ⟨by simp [idsOf], by simp⟩

theorem IncrRange.single {lo hi : Nat} {n : Node} (h1 : lo ≤ n._id)
    (h2 : n._id < hi) : IncrRange lo hi [n] := by
  refine ⟨by simp [idsOf], ?_⟩
  intro m hm
  rw [List.mem_singleton] at hm
  rw [hm]
  exact ⟨h1, h2⟩

theorem incrRange_mono {lo hi lo2 hi2 : Nat} {ns : List Node}
    (h : IncrRange lo hi ns) (hl : lo2 ≤ lo) (hh : hi ≤ hi2) :
    IncrRange lo2 hi2 ns := by
  refine ⟨h.1, fun n hn => ?_⟩
  obtain ⟨a, b⟩ := h.2 n hn
  exact ⟨le_trans hl a, lt_of_lt_of_le b hh⟩

theorem IncrRange.append {lo mid hi : Nat} {ns1 ns2 : List Node}
    (h1 : IncrRange lo mid ns1) (h2 : IncrRange mid hi ns2)
    (hlm : lo ≤ mid) (hmh : mid ≤ hi) : IncrRange lo hi (ns1 ++ ns2) := by
  obtain ⟨p1, b1⟩ := h1
  obtain ⟨p2, b2⟩ := h2
  constructor
  · have : idsOf (ns1 ++ ns2) = idsOf ns1 ++ idsOf ns2 := by simp [idsOf]
    rw [this, List.pairwise_append]
    refine ⟨p1, p2, ?_⟩
    intro a ha b hb
    obtain ⟨n, hn, rfl⟩ := mem_idsOf.mp ha
    obtain ⟨m, hm, rfl⟩ := mem_idsOf.mp hb
    exact lt_of_lt_of_le (b1 n hn).2 (b2 m hm).1
  · intro n hn
    rcases List.mem_append.mp hn with h | h
    · exact ⟨(b1 n h).1, lt_of_lt_of_le (b1 n h).2 hmh⟩
    · exact ⟨le_trans hlm (b2 n h).1, (b2 n h).2⟩

theorem IncrRange.cons_ir {lo hi : Nat} {ns : List Node} {n : Node}
    (hn : lo ≤ n._id) (hlt : n._id < lo + 1) (h : IncrRange (lo + 1) hi ns)
    (hlh : lo + 1 ≤ hi) : IncrRange lo hi (n :: ns) := by
  have := IncrRange.append (IncrRange.single hn hlt) h (Nat.le_succ lo) hlh
  simpa using this

theorem IncrRange.nodup {lo hi : Nat} {ns : List Node} (h : IncrRange lo hi ns) :
    (idsOf ns).Nodup :=
  h.1.imp (fun hlt => Nat.ne_of_lt hlt)

theorem closedBlock_nil : ClosedBlock [] := by
  intro n hn
  simp at hn

theorem closedBlock_append {ns1 ns2 : List Node} (h1 : ClosedBlock ns1)
    (h2 : ClosedBlock ns2) : ClosedBlock (ns1 ++ ns2) := by
  intro n hn c hc
  have hmono : ∀ {ms : List Node}, c ∈ idsOf ms → ms = ns1 ∨ ms = ns2 →
      c ∈ idsOf (ns1 ++ ns2) := by
    intro ms hm hor
    obtain ⟨x, hx, rfl⟩ := mem_idsOf.mp hm
    rcases hor with rfl | rfl
    · exact mem_idsOf.mpr ⟨x, List.mem_append_left _ hx, rfl⟩
    · exact mem_idsOf.mpr ⟨x, List.mem_append_right _ hx, rfl⟩
  rcases List.mem_append.mp hn with h | h
  · exact hmono (h1 n h c hc) (Or.inl rfl)
  · exact hmono (h2 n h c hc) (Or.inr rfl)

theorem indexById_of_mem {NS : List Node} (hnd : (idsOf NS).Nodup) {n : Node}
    (hm : n ∈ NS) : indexById NS n._id = some n := by
  have hmr : n ∈ NS.reverse := List.mem_reverse.mpr hm
  have hsome : (NS.reverse.find? (fun x => x._id == n._id)).isSome := by
    rw [List.find?_isSome]
    exact ⟨n, hmr, by simp⟩
  obtain ⟨x, hx⟩ := Option.isSome_iff_exists.mp hsome
  have hxmem : x ∈ NS := List.mem_reverse.mp (List.mem_of_find?_eq_some hx)
  have hxid : x._id = n._id := by simpa using List.find?_some hx
  have hnd2 : (NS.map (fun m => m._id)).Nodup := by simpa [idsOf] using hnd
  have hxn : x = n :=
    List.inj_on_of_nodup_map hnd2 hxmem hm hxid
  rw [indexById, hx, hxn]

/-! ### Monotonicity of the block-shape predicates in the ambient list -/

theorem cellAt_mono {cfg : Config} {ns ns2 : List Node} {cell : Node} {txt : String}
    (h : CellAt cfg ns cell txt) (hsub : ∀ x ∈ ns, x ∈ ns2) :
    CellAt cfg ns2 cell txt := by
  rcases h with h | ⟨hd, hs, tn, htn, hrest⟩ | ⟨hd, hs, sp, hsp, h1, h2, h3, tn, htn, hrest⟩
  · exact Or.inl h
  · exact Or.inr (Or.inl ⟨hd, hs, tn, hsub tn htn, hrest⟩)
  · exact Or.inr (Or.inr ⟨hd, hs, sp, hsub sp hsp, h1, h2, h3, tn, hsub tn htn, hrest⟩)

theorem cellsSpec_mono {cfg : Config} {tag : String} {srow : Option (List String)}
    {ns ns2 : List Node} (hsub : ∀ x ∈ ns, x ∈ ns2) :
    ∀ {cells : List Node} {c : Nat}, CellsSpec cfg tag srow ns cells c →
      CellsSpec cfg tag srow ns2 cells c := by
  intro cells
  induction cells with
  | nil => intro c _; trivial
  | cons cell rest ih =>
    intro c h
    obtain ⟨h1, h2, h3, h4, h5⟩ := h
    exact ⟨h1, h2, h3, cellAt_mono h4 hsub, ih h5⟩

theorem rowsSpec_mono {cfg : Config} {sectionTag : String} {ns ns2 : List Node}
    (hsub : ∀ x ∈ ns, x ∈ ns2) :
    ∀ {trs : List Node} {r : Nat}, RowsSpec cfg sectionTag ns trs r →
      RowsSpec cfg sectionTag ns2 trs r := by
  intro trs
  induction trs with
  | nil => intro r _; trivial
  | cons tr rest ih =>
    intro r h
    obtain ⟨h1, h2, h3, ⟨cells, hmem, hch, hlen, hcs⟩, h5⟩ := h
    exact ⟨h1, h2, h3,
      ⟨cells, fun x hx => hsub x (hmem x hx), hch, hlen, cellsSpec_mono hsub hcs⟩, ih h5⟩

/-! ### The `uid` counter only moves forward -/

theorem ensureStyle_nextId (name : String) (st : BuildState) :
    st.nextId ≤ (ensureStyle name st).2.nextId := by
  rw [ensureStyle]
  split
  · exact Nat.le_refl _
  · split
    · exact Nat.le_refl _
    · exact Nat.le_succ _

theorem classIdsAux_cons_snd (n : String) (rest : List String) (st : BuildState) :
    (classIdsAux (n :: rest) st).2 = (classIdsAux rest (ensureStyle n st).2).2 := by
  rw [classIdsAux]
  cases (ensureStyle n st).1 <;> rfl

theorem classIdsAux_nextId (l : List String) :
    ∀ st : BuildState, st.nextId ≤ (classIdsAux l st).2.nextId := by
  induction l with
  | nil => intro st; exact Nat.le_refl _
  | cons n rest ih =>
    intro st
    rw [classIdsAux_cons_snd]
    exact le_trans (ensureStyle_nextId n st) (ih _)

theorem classIds_nextId (l : List String) (st : BuildState) :
    st.nextId ≤ (classIds l st).2.nextId :=
  classIdsAux_nextId _ _

theorem head?_mem {α : Type} {l : List α} {a : α} (h : l.head? = some a) : a ∈ l := by
  cases l with
  | nil => simp at h
  | cons x xs =>
    rw [List.head?_cons] at h
    rw [List.mem_cons]
    exact Or.inl (Option.some_injective _ h).symm

/-! ### Shape of one built cell -/

theorem makeCell_spec (cfg : Config) (cellTag : String) (srow : Option (List String))
    (c : Nat) (st : BuildState) :
    st.nextId ≤ (makeCell cfg cellTag srow c st).2.2.nextId ∧
    IncrRange st.nextId (makeCell cfg cellTag srow c st).2.2.nextId
      (makeCell cfg cellTag srow c st).2.1 ∧
    ClosedBlock (makeCell cfg cellTag srow c st).2.1 ∧
    ∃ cell, (makeCell cfg cellTag srow c st).2.1.head? = some cell ∧
      cell._id = (makeCell cfg cellTag srow c st).1 ∧ cell.text = false ∧
      cell.tag = "div" ∧ cell.dataTag = cellTag ∧
      CellAt cfg (makeCell cfg cellTag srow c st).2.1 cell (cellTextValue cfg srow c) ∧
      (cfg.csvData = none → (makeCell cfg cellTag srow c st).2.1 = [cell]) := by
  rcases hC : classIds (listOfClass cfg.cellClass) st with ⟨cls, st1⟩
  have hle1 : st.nextId ≤ st1.nextId := by
    have h := classIds_nextId (listOfClass cfg.cellClass) st
    rw [hC] at h
    exact h
  cases hcsv : cfg.csvData with
  | none =>
    simp only [makeCell, hC, hcsv, freshId]
    refine ⟨le_trans hle1 (Nat.le_succ _),
      IncrRange.single hle1 (Nat.lt_succ_self _), ?_, ?_⟩
    · intro n hn cc hcc
      rw [List.mem_singleton] at hn
      rw [hn] at hcc
      simp [makeDomNode] at hcc
    · refine ⟨makeDomNode st1.nextId cellTag cls [], rfl, rfl, rfl, rfl, rfl, ?_, fun _ => rfl⟩
      exact Or.inl ⟨hcsv, rfl, by simp [cellTextValue, hcsv]⟩
  | some d =>
    cases hspan : cfg.useSpanFallback with
    | false =>
      simp only [makeCell, hC, hcsv, hspan, freshId, Bool.false_eq_true, if_false]
      refine ⟨le_trans hle1 (by omega), ⟨?_, ?_⟩, ?_, ?_⟩
      · simp [idsOf, makeDomNode, makeTextNode, List.pairwise_cons]
      · intro n hn
        simp only [List.mem_cons, List.not_mem_nil, or_false] at hn
        rcases hn with rfl | rfl
        all_goals simp only [makeDomNode, makeTextNode]
        all_goals omega
      · intro n hn cc hcc
        simp only [List.mem_cons, List.not_mem_nil, or_false] at hn
        rcases hn with rfl | rfl
        all_goals simp only [makeDomNode, makeTextNode, List.mem_singleton,
          List.not_mem_nil] at hcc
        · rw [hcc]
          simp [idsOf, makeDomNode, makeTextNode]
      · refine ⟨_, rfl, rfl, rfl, rfl, rfl, ?_, ?_⟩
        · refine Or.inr (Or.inl ⟨⟨d, hcsv⟩, hspan, ?_⟩)
          exact ⟨makeTextNode (st1.nextId + 1) (cellTextValue cfg srow c),
            by simp, by simp [makeDomNode, makeTextNode], rfl, rfl⟩
        · intro hcon
          exact Option.noConfusion hcon
    | true =>
      simp only [makeCell, hC, hcsv, hspan, if_true, freshId]
      refine ⟨le_trans hle1 (by omega), ⟨?_, ?_⟩, ?_, ?_⟩
      · simp only [idsOf, List.map_cons, List.map_nil, makeDomNode, makeTextNode]
        refine List.Pairwise.cons ?_ (List.Pairwise.cons ?_
          (List.Pairwise.cons (by intro b hb; simp at hb) List.Pairwise.nil))
        · intro b hb
          rcases List.mem_cons.mp hb with rfl | hb2
          · omega
          · rcases List.mem_singleton.mp hb2 with rfl
            omega
        · intro b hb
          rcases List.mem_singleton.mp hb with rfl
          omega
      · intro n hn
        simp only [List.mem_cons, List.not_mem_nil, or_false] at hn
        rcases hn with rfl | rfl | rfl
        all_goals simp only [makeDomNode, makeTextNode]
        all_goals omega
      · intro n hn cc hcc
        simp only [List.mem_cons, List.not_mem_nil, or_false] at hn
        rcases hn with rfl | rfl | rfl
        all_goals simp only [makeDomNode, makeTextNode, List.mem_singleton,
          List.not_mem_nil] at hcc
        · rw [hcc]
          simp [idsOf, makeDomNode, makeTextNode]
        · rw [hcc]
          simp [idsOf, makeDomNode, makeTextNode]
      · refine ⟨_, rfl, rfl, rfl, rfl, rfl, ?_, ?_⟩
        · refine Or.inr (Or.inr ⟨⟨d, hcsv⟩, hspan, ?_⟩)
          refine ⟨{ makeDomNode (st1.nextId + 1) "span" [] [] with
              children := [st1.nextId + 2] }, by simp, rfl, rfl, rfl, ?_⟩
          exact ⟨makeTextNode (st1.nextId + 2) (cellTextValue cfg srow c),
            by simp, by simp [makeDomNode, makeTextNode], rfl, rfl⟩
        · intro hcon
          exact Option.noConfusion hcon

/-! ### Shape of a built cell run -/

theorem makeCells_spec (cfg : Config) (cellTag : String)
    (srow : Option (List String)) :
    ∀ (m c : Nat) (st : BuildState),
      st.nextId ≤ (makeCells cfg cellTag srow m c st).2.2.nextId ∧
      IncrRange st.nextId (makeCells cfg cellTag srow m c st).2.2.nextId
        (makeCells cfg cellTag srow m c st).2.1 ∧
      ClosedBlock (makeCells cfg cellTag srow m c st).2.1 ∧
      ∃ cells, (∀ x ∈ cells, x ∈ (makeCells cfg cellTag srow m c st).2.1) ∧
        (makeCells cfg cellTag srow m c st).1 = idsOf cells ∧
        cells.length = m ∧
        CellsSpec cfg cellTag srow (makeCells cfg cellTag srow m c st).2.1 cells c ∧
        (cfg.csvData = none → (makeCells cfg cellTag srow m c st).2.1 = cells) := by
  intro m
  induction m with
  | zero =>
    intro c st
    refine ⟨Nat.le_refl _, IncrRange.nil_ir, closedBlock_nil,
      [], by simp, rfl, rfl, trivial, fun _ => rfl⟩
  | succ m ih =>
    intro c st
    rcases hr1 : makeCell cfg cellTag srow c st with ⟨cid, ns1, st1⟩
    rcases hr2 : makeCells cfg cellTag srow m (c + 1) st1 with ⟨ids2, ns2, st2⟩
    have s1 := makeCell_spec cfg cellTag srow c st
    rw [hr1] at s1
    dsimp only at s1
    obtain ⟨le1, ir1, cb1, cell, hhead, hcid, htext, htag, hdt, hat, hone⟩ := s1
    have s2 := ih (c + 1) st1
    rw [hr2] at s2
    dsimp only at s2
    obtain ⟨le2, ir2, cb2, cells2, hmem2, hids2, hlen2, hcs2, hall2⟩ := s2
    have hres : makeCells cfg cellTag srow (m + 1) c st = (cid :: ids2, ns1 ++ ns2, st2) := by
      rw [makeCells, hr1, hr2]
    rw [hres]
    have hsub1 : ∀ x ∈ ns1, x ∈ ns1 ++ ns2 := fun x hx => List.mem_append_left _ hx
    have hsub2 : ∀ x ∈ ns2, x ∈ ns1 ++ ns2 := fun x hx => List.mem_append_right _ hx
    refine ⟨le_trans le1 le2, IncrRange.append ir1 ir2 le1 le2,
      closedBlock_append cb1 cb2, cell :: cells2, ?_, ?_, ?_, ?_, ?_⟩
    · intro x hx
      rcases List.mem_cons.mp hx with rfl | hx2
      · exact hsub1 _ (head?_mem hhead)
      · exact hsub2 _ (hmem2 x hx2)
    · simp only [idsOf, List.map_cons]
      rw [← hcid]
      simp only [idsOf] at hids2
      rw [hids2]
    · simp [hlen2]
    · exact ⟨htext, htag, hdt, cellAt_mono hat hsub1, cellsSpec_mono hsub2 hcs2⟩
    · intro hnone
      rw [hone hnone, hall2 hnone]
      rfl

/-! ### Plainness of grid-less blocks -/

theorem plainBlock_nil : PlainBlock [] := by
  intro n hn
  simp at hn

theorem plainBlock_append {a b : List Node} (ha : PlainBlock a) (hb : PlainBlock b) :
    PlainBlock (a ++ b) := by
  intro n hn
  rcases List.mem_append.mp hn with h | h
  · exact ha n h
  · exact hb n h

theorem plainBlock_cons {a : List Node} {n : Node}
    (h1 : n.text = false ∧ n.dataTag ≠ "span" ∧
      ((n.dataTag = "td" ∨ n.dataTag = "th") → n.children = []))
    (h2 : PlainBlock a) : PlainBlock (n :: a) := by
  intro m hm
  rcases List.mem_cons.mp hm with rfl | hm2
  · exact h1
  · exact h2 m hm2

theorem cellTagOf_cases (cfg : Config) (s : String) :
    cellTagOf cfg s = "th" ∨ cellTagOf cfg s = "td" := by
  rw [cellTagOf]
  split
  · exact Or.inl rfl
  · exact Or.inr rfl

theorem CellsSpec.plain {cfg : Config} {tag : String} {srow : Option (List String)}
    {ns : List Node} (htag : tag = "th" ∨ tag = "td") (hnone : cfg.csvData = none) :
    ∀ {cells : List Node} {c : Nat}, CellsSpec cfg tag srow ns cells c →
      PlainBlock cells := by
  intro cells
  induction cells with
  | nil => intro c _; exact plainBlock_nil
  | cons cell rest ih =>
    intro c h
    obtain ⟨h1, h2, h3, h4, h5⟩ := h
    refine plainBlock_cons ⟨h1, ?_, ?_⟩ (ih h5)
    · rw [h3]
      rcases htag with rfl | rfl <;> simp
    · intro _
      rcases h4 with ⟨_, hch, _⟩ | ⟨⟨d, hd⟩, _⟩ | ⟨⟨d, hd⟩, _⟩
      · exact hch
      · rw [hnone] at hd
        exact Option.noConfusion hd
      · rw [hnone] at hd
        exact Option.noConfusion hd

/-! ### Shape of one built row -/

theorem makeRow_spec (cfg : Config) (sectionTag : String) (rIndex : Nat)
    (st : BuildState) :
    st.nextId ≤ (makeRow cfg sectionTag rIndex st).2.2.nextId ∧
    IncrRange st.nextId (makeRow cfg sectionTag rIndex st).2.2.nextId
      (makeRow cfg sectionTag rIndex st).2.1 ∧
    ClosedBlock (makeRow cfg sectionTag rIndex st).2.1 ∧
    ∃ tr, (makeRow cfg sectionTag rIndex st).2.1.head? = some tr ∧
      tr._id = (makeRow cfg sectionTag rIndex st).1 ∧
      tr.text = false ∧ tr.tag = "div" ∧ tr.dataTag = "tr" ∧
      (∃ cells, (∀ x ∈ cells, x ∈ (makeRow cfg sectionTag rIndex st).2.1) ∧
        tr.children = idsOf cells ∧ cells.length = cellCountOf cfg ∧
        CellsSpec cfg (cellTagOf cfg sectionTag) (sourceRowOf cfg sectionTag rIndex)
          (makeRow cfg sectionTag rIndex st).2.1 cells 0) ∧
      (cfg.csvData = none → PlainBlock (makeRow cfg sectionTag rIndex st).2.1) := by
  rcases hC : classIds (listOfClass cfg.rowClass) st with ⟨cls, st1⟩
  have hle1 : st.nextId ≤ st1.nextId := by
    have h := classIds_nextId (listOfClass cfg.rowClass) st
    rw [hC] at h
    exact h
  rcases hMC : makeCells cfg (cellTagOf cfg sectionTag)
      (sourceRowOf cfg sectionTag rIndex) (cellCountOf cfg) 0
      { st1 with nextId := st1.nextId + 1 } with ⟨ids, cns, st2⟩
  have sc := makeCells_spec cfg (cellTagOf cfg sectionTag)
    (sourceRowOf cfg sectionTag rIndex) (cellCountOf cfg) 0
    { st1 with nextId := st1.nextId + 1 }
  rw [hMC] at sc
  dsimp only at sc
  obtain ⟨cle, cir, ccb, cells, cmem, cids, clen, ccs, call⟩ := sc
  have hres : makeRow cfg sectionTag rIndex st =
      (st1.nextId,
       { makeDomNode st1.nextId "tr" cls [] with children := ids } :: cns, st2) := by
    rw [makeRow, hC]
    simp only [freshId]
    rw [hMC]
  rw [hres]
  dsimp only
  have hsubc : ∀ x ∈ cns,
      x ∈ ({ makeDomNode st1.nextId "tr" cls [] with children := ids } :: cns) :=
    fun x hx => List.mem_cons_of_mem _ hx
  refine ⟨le_trans hle1 (le_trans (Nat.le_succ _) cle), ?_, ?_, ?_⟩
  · refine incrRange_mono (IncrRange.cons_ir (le_refl _) (Nat.lt_succ_self _) cir cle)
      hle1 (le_refl _)
  · intro n hn c hc
    rcases List.mem_cons.mp hn with rfl | hn2
    · simp only [makeDomNode] at hc
      rw [cids] at hc
      obtain ⟨cell, hcm, rfl⟩ := mem_idsOf.mp hc
      exact mem_idsOf.mpr ⟨cell, List.mem_cons_of_mem _ (cmem cell hcm), rfl⟩
    · obtain ⟨x, hx1, hx2⟩ := mem_idsOf.mp (ccb n hn2 c hc)
      exact mem_idsOf.mpr ⟨x, List.mem_cons_of_mem _ hx1, hx2⟩
  · refine ⟨{ makeDomNode st1.nextId "tr" cls [] with children := ids },
      rfl, rfl, rfl, rfl, rfl, ?_, ?_⟩
    · exact ⟨cells, fun x hx => List.mem_cons_of_mem _ (cmem x hx), cids, clen,
        cellsSpec_mono hsubc ccs⟩
    · intro hnone
      refine plainBlock_cons ⟨rfl, by simp [makeDomNode], by simp [makeDomNode]⟩ ?_
      rw [call hnone]
      exact CellsSpec.plain (cellTagOf_cases cfg sectionTag) hnone ccs

/-! ### Shape of the body-row run -/

theorem makeBodyRows_spec (cfg : Config) :
    ∀ (m r : Nat) (st : BuildState),
      st.nextId ≤ (makeBodyRows cfg m r st).2.2.nextId ∧
      IncrRange st.nextId (makeBodyRows cfg m r st).2.2.nextId
        (makeBodyRows cfg m r st).2.1 ∧
      ClosedBlock (makeBodyRows cfg m r st).2.1 ∧
      ∃ trs, (∀ x ∈ trs, x ∈ (makeBodyRows cfg m r st).2.1) ∧
        (makeBodyRows cfg m r st).1 = idsOf trs ∧ trs.length = m ∧
        RowsSpec cfg "tbody" (makeBodyRows cfg m r st).2.1 trs r ∧
        (cfg.csvData = none → PlainBlock (makeBodyRows cfg m r st).2.1) := by
  intro m
  induction m with
  | zero =>
    intro r st
    exact ⟨Nat.le_refl _, IncrRange.nil_ir, closedBlock_nil,
      [], by simp, rfl, rfl, trivial, fun _ => plainBlock_nil⟩
  | succ m ih =>
    intro r st
    rcases hr1 : makeRow cfg "tbody" r st with ⟨trId, ns1, st1⟩
    rcases hr2 : makeBodyRows cfg m (r + 1) st1 with ⟨ids2, ns2, st2⟩
    have s1 := makeRow_spec cfg "tbody" r st
    rw [hr1] at s1
    dsimp only at s1
    obtain ⟨le1, ir1, cb1, tr, hhead, htid, htext, htag, hdt, ⟨cells, hcm, hch, hclen, hcs⟩,
      hplain1⟩ := s1
    have s2 := ih (r + 1) st1
    rw [hr2] at s2
    dsimp only at s2
    obtain ⟨le2, ir2, cb2, trs2, hmem2, hids2, hlen2, hrs2, hplain2⟩ := s2
    have hres : makeBodyRows cfg (m + 1) r st = (trId :: ids2, ns1 ++ ns2, st2) := by
      rw [makeBodyRows, hr1, hr2]
    rw [hres]
    dsimp only
    have hsub1 : ∀ x ∈ ns1, x ∈ ns1 ++ ns2 := fun x hx => List.mem_append_left _ hx
    have hsub2 : ∀ x ∈ ns2, x ∈ ns1 ++ ns2 := fun x hx => List.mem_append_right _ hx
    refine ⟨le_trans le1 le2, IncrRange.append ir1 ir2 le1 le2,
      closedBlock_append cb1 cb2, tr :: trs2, ?_, ?_, ?_, ?_, ?_⟩
    · intro x hx
      rcases List.mem_cons.mp hx with rfl | hx2
      · exact hsub1 _ (head?_mem hhead)
      · exact hsub2 _ (hmem2 x hx2)
    · simp only [idsOf, List.map_cons]
      rw [← htid, hids2]
      rfl
    · simp [hlen2]
    · exact ⟨htext, htag, hdt,
        ⟨cells, fun x hx => hsub1 x (hcm x hx), hch, hclen, cellsSpec_mono hsub1 hcs⟩,
        rowsSpec_mono hsub2 hrs2⟩
    · intro hnone
      exact plainBlock_append (hplain1 hnone) (hplain2 hnone)

/-! ### Shape of the three sections -/

theorem makeHead_spec (cfg : Config) (st : BuildState) :
    st.nextId ≤ (makeHead cfg st).2.2.nextId ∧
    IncrRange st.nextId (makeHead cfg st).2.2.nextId (makeHead cfg st).2.1 ∧
    ClosedBlock (makeHead cfg st).2.1 ∧
    ∃ sec, (makeHead cfg st).2.1.head? = some sec ∧
      sec._id = (makeHead cfg st).1 ∧ sec.text = false ∧ sec.dataTag = "thead" ∧
      (∃ trs, (∀ x ∈ trs, x ∈ (makeHead cfg st).2.1) ∧ sec.children = idsOf trs ∧
        trs.length = 1 ∧ RowsSpec cfg "thead" (makeHead cfg st).2.1 trs 0) ∧
      (cfg.csvData = none → PlainBlock (makeHead cfg st).2.1) := by
  rcases hC : classIds (listOfClass cfg.theadClass) st with ⟨cls, st1⟩
  have hle1 : st.nextId ≤ st1.nextId := by
    have h := classIds_nextId (listOfClass cfg.theadClass) st
    rw [hC] at h
    exact h
  rcases hR : makeRow cfg "thead" 0 { st1 with nextId := st1.nextId + 1 }
    with ⟨trId, rns, st2⟩
  have sr := makeRow_spec cfg "thead" 0 { st1 with nextId := st1.nextId + 1 }
  rw [hR] at sr
  dsimp only at sr
  obtain ⟨rle, rir, rcb, tr, rhead, rtid, rtext, rtag, rdt,
    ⟨cells, hcm, hch, hclen, hcs⟩, rplain⟩ := sr
  have hres : makeHead cfg st =
      (st1.nextId,
       { makeDomNode st1.nextId "thead" cls [] with children := [trId] } :: rns, st2) := by
    rw [makeHead, hC]
    simp only [freshId]
    rw [hR]
  rw [hres]
  dsimp only
  have hsub : ∀ x ∈ rns,
      x ∈ ({ makeDomNode st1.nextId "thead" cls [] with children := [trId] } :: rns) :=
    fun x hx => List.mem_cons_of_mem _ hx
  refine ⟨le_trans hle1 (le_trans (Nat.le_succ _) rle),
    incrRange_mono (IncrRange.cons_ir (le_refl _) (Nat.lt_succ_self _) rir rle)
      hle1 (le_refl _), ?_, ?_⟩
  · intro n hn c hc
    rcases List.mem_cons.mp hn with rfl | hn2
    · simp only [makeDomNode, List.mem_singleton] at hc
      rw [hc, ← rtid]
      exact mem_idsOf.mpr ⟨tr, List.mem_cons_of_mem _ (head?_mem rhead), rfl⟩
    · obtain ⟨x, hx1, hx2⟩ := mem_idsOf.mp (rcb n hn2 c hc)
      exact mem_idsOf.mpr ⟨x, List.mem_cons_of_mem _ hx1, hx2⟩
  · refine ⟨_, rfl, rfl, rfl, rfl, ?_, ?_⟩
    · refine ⟨[tr], ?_, ?_, rfl, ?_⟩
      · intro x hx
        rcases List.mem_singleton.mp hx with rfl
        exact List.mem_cons_of_mem _ (head?_mem rhead)
      · simp [idsOf, makeDomNode, rtid]
      · exact ⟨rtext, rtag, rdt,
          ⟨cells, fun x hx => hsub x (hcm x hx), hch, hclen, cellsSpec_mono hsub hcs⟩, trivial⟩
    · intro hnone
      exact plainBlock_cons ⟨rfl, by simp [makeDomNode], by simp [makeDomNode]⟩
        (rplain hnone)

theorem makeFoot_spec (cfg : Config) (st : BuildState) :
    st.nextId ≤ (makeFoot cfg st).2.2.nextId ∧
    IncrRange st.nextId (makeFoot cfg st).2.2.nextId (makeFoot cfg st).2.1 ∧
    ClosedBlock (makeFoot cfg st).2.1 ∧
    ∃ sec, (makeFoot cfg st).2.1.head? = some sec ∧
      sec._id = (makeFoot cfg st).1 ∧ sec.text = false ∧ sec.dataTag = "tfoot" ∧
      (∃ trs, (∀ x ∈ trs, x ∈ (makeFoot cfg st).2.1) ∧ sec.children = idsOf trs ∧
        trs.length = 1 ∧ RowsSpec cfg "tfoot" (makeFoot cfg st).2.1 trs 0) ∧
      (cfg.csvData = none → PlainBlock (makeFoot cfg st).2.1) := by
  rcases hC : classIds (listOfClass cfg.tfootClass) st with ⟨cls, st1⟩
  have hle1 : st.nextId ≤ st1.nextId := by
    have h := classIds_nextId (listOfClass cfg.tfootClass) st
    rw [hC] at h
    exact h
  rcases hR : makeRow cfg "tfoot" 0 { st1 with nextId := st1.nextId + 1 }
    with ⟨trId, rns, st2⟩
  have sr := makeRow_spec cfg "tfoot" 0 { st1 with nextId := st1.nextId + 1 }
  rw [hR] at sr
  dsimp only at sr
  obtain ⟨rle, rir, rcb, tr, rhead, rtid, rtext, rtag, rdt,
    ⟨cells, hcm, hch, hclen, hcs⟩, rplain⟩ := sr
  have hres : makeFoot cfg st =
      (st1.nextId,
       { makeDomNode st1.nextId "tfoot" cls [] with children := [trId] } :: rns, st2) := by
    rw [makeFoot, hC]
    simp only [freshId]
    rw [hR]
  rw [hres]
  dsimp only
  have hsub : ∀ x ∈ rns,
      x ∈ ({ makeDomNode st1.nextId "tfoot" cls [] with children := [trId] } :: rns) :=
    fun x hx => List.mem_cons_of_mem _ hx
  refine ⟨le_trans hle1 (le_trans (Nat.le_succ _) rle),
    incrRange_mono (IncrRange.cons_ir (le_refl _) (Nat.lt_succ_self _) rir rle)
      hle1 (le_refl _), ?_, ?_⟩
  · intro n hn c hc
    rcases List.mem_cons.mp hn with rfl | hn2
    · simp only [makeDomNode, List.mem_singleton] at hc
      rw [hc, ← rtid]
      exact mem_idsOf.mpr ⟨tr, List.mem_cons_of_mem _ (head?_mem rhead), rfl⟩
    · obtain ⟨x, hx1, hx2⟩ := mem_idsOf.mp (rcb n hn2 c hc)
      exact mem_idsOf.mpr ⟨x, List.mem_cons_of_mem _ hx1, hx2⟩
  · refine ⟨_, rfl, rfl, rfl, rfl, ?_, ?_⟩
    · refine ⟨[tr], ?_, ?_, rfl, ?_⟩
      · intro x hx
        rcases List.mem_singleton.mp hx with rfl
        exact List.mem_cons_of_mem _ (head?_mem rhead)
      · simp [idsOf, makeDomNode, rtid]
      · exact ⟨rtext, rtag, rdt,
          ⟨cells, fun x hx => hsub x (hcm x hx), hch, hclen, cellsSpec_mono hsub hcs⟩, trivial⟩
    · intro hnone
      exact plainBlock_cons ⟨rfl, by simp [makeDomNode], by simp [makeDomNode]⟩
        (rplain hnone)

theorem makeBody_spec (cfg : Config) (st : BuildState) :
    st.nextId ≤ (makeBody cfg st).2.2.nextId ∧
    IncrRange st.nextId (makeBody cfg st).2.2.nextId (makeBody cfg st).2.1 ∧
    ClosedBlock (makeBody cfg st).2.1 ∧
    ∃ sec, (makeBody cfg st).2.1.head? = some sec ∧
      sec._id = (makeBody cfg st).1 ∧ sec.text = false ∧ sec.dataTag = "tbody" ∧
      (∃ trs, (∀ x ∈ trs, x ∈ (makeBody cfg st).2.1) ∧ sec.children = idsOf trs ∧
        trs.length = bodyCountOf cfg ∧
        RowsSpec cfg "tbody" (makeBody cfg st).2.1 trs 0) ∧
      (cfg.csvData = none → PlainBlock (makeBody cfg st).2.1) := by
  rcases hC : classIds (listOfClass cfg.tbodyClass) st with ⟨cls, st1⟩
  have hle1 : st.nextId ≤ st1.nextId := by
    have h := classIds_nextId (listOfClass cfg.tbodyClass) st
    rw [hC] at h
    exact h
  rcases hR : makeBodyRows cfg (bodyCountOf cfg) 0 { st1 with nextId := st1.nextId + 1 }
    with ⟨trIds, rns, st2⟩
  have sr := makeBodyRows_spec cfg (bodyCountOf cfg) 0 { st1 with nextId := st1.nextId + 1 }
  rw [hR] at sr
  dsimp only at sr
  obtain ⟨rle, rir, rcb, trs, hmem, hids, hlen, hrs, rplain⟩ := sr
  have hres : makeBody cfg st =
      (st1.nextId,
       { makeDomNode st1.nextId "tbody" cls [] with children := trIds } :: rns, st2) := by
    rw [makeBody, hC]
    simp only [freshId]
    rw [hR]
  rw [hres]
  dsimp only
  have hsub : ∀ x ∈ rns,
      x ∈ ({ makeDomNode st1.nextId "tbody" cls [] with children := trIds } :: rns) :=
    fun x hx => List.mem_cons_of_mem _ hx
  refine ⟨le_trans hle1 (le_trans (Nat.le_succ _) rle),
    incrRange_mono (IncrRange.cons_ir (le_refl _) (Nat.lt_succ_self _) rir rle)
      hle1 (le_refl _), ?_, ?_⟩
  · intro n hn c hc
    rcases List.mem_cons.mp hn with rfl | hn2
    · simp only [makeDomNode] at hc
      rw [hids] at hc
      obtain ⟨x, hx1, rfl⟩ := mem_idsOf.mp hc
      exact mem_idsOf.mpr ⟨x, List.mem_cons_of_mem _ (hmem x hx1), rfl⟩
    · obtain ⟨x, hx1, hx2⟩ := mem_idsOf.mp (rcb n hn2 c hc)
      exact mem_idsOf.mpr ⟨x, List.mem_cons_of_mem _ hx1, hx2⟩
  · refine ⟨_, rfl, rfl, rfl, rfl, ?_, ?_⟩
    · refine ⟨trs, fun x hx => hsub x (hmem x hx), ?_, hlen, rowsSpec_mono hsub hrs⟩
      simp only [makeDomNode]
      exact hids
    · intro hnone
      exact plainBlock_cons ⟨rfl, by simp [makeDomNode], by simp [makeDomNode]⟩
        (rplain hnone)

/-! ### Shape of the wrapper chain -/

theorem makeWrap_spec (tableId : Nat) (st : BuildState) :
    st.nextId ≤ (makeWrap tableId st).2.nextId ∧
    IncrRange st.nextId (makeWrap tableId st).2.nextId (makeWrap tableId st).1 ∧
    (∀ n ∈ (makeWrap tableId st).1, n.text = false ∧ n.dataTag = "div") ∧
    (∀ n ∈ (makeWrap tableId st).1, ∀ c ∈ n.children,
      c ∈ idsOf (makeWrap tableId st).1 ∨ c = tableId) := by
  rcases h1 : classIds ["section_table"] st with ⟨c1, s1⟩
  have l1 : st.nextId ≤ s1.nextId := by
    have h := classIds_nextId ["section_table"] st
    rw [h1] at h
    exact h
  rcases h2 : classIds ["padding-global"] { s1 with nextId := s1.nextId + 1 }
    with ⟨c2, s2⟩
  have l2 : s1.nextId + 1 ≤ s2.nextId := by
    have h := classIds_nextId ["padding-global"] { s1 with nextId := s1.nextId + 1 }
    rw [h2] at h
    exact h
  rcases h3 : classIds ["container-large"] { s2 with nextId := s2.nextId + 1 }
    with ⟨c3, s3⟩
  have l3 : s2.nextId + 1 ≤ s3.nextId := by
    have h := classIds_nextId ["container-large"] { s2 with nextId := s2.nextId + 1 }
    rw [h3] at h
    exact h
  rcases h4 : classIds ["padding-section-medium"] { s3 with nextId := s3.nextId + 1 }
    with ⟨c4, s4⟩
  have l4 : s3.nextId + 1 ≤ s4.nextId := by
    have h := classIds_nextId ["padding-section-medium"] { s3 with nextId := s3.nextId + 1 }
    rw [h4] at h
    exact h
  rcases h5 : classIds ["table_component"] { s4 with nextId := s4.nextId + 1 }
    with ⟨c5, s5⟩
  have l5 : s4.nextId + 1 ≤ s5.nextId := by
    have h := classIds_nextId ["table_component"] { s4 with nextId := s4.nextId + 1 }
    rw [h5] at h
    exact h
  have hres : makeWrap tableId st =
      ([{ makeDomNode s1.nextId "div" c1 [] with children := [s2.nextId] },
        { makeDomNode s2.nextId "div" c2 [] with children := [s3.nextId] },
        { makeDomNode s3.nextId "div" c3 [] with children := [s4.nextId] },
        { makeDomNode s4.nextId "div" c4 [] with children := [s5.nextId] },
        { makeDomNode s5.nextId "div" c5 [] with children := [tableId] }],
       { s5 with nextId := s5.nextId + 1 }) := by
    rw [makeWrap, h1]
    simp only [freshId]
    rw [h2]
    simp only [freshId]
    rw [h3]
    simp only [freshId]
    rw [h4]
    simp only [freshId]
    rw [h5]
  rw [hres]
  dsimp only
  refine ⟨by omega, ⟨?_, ?_⟩, ?_, ?_⟩
  · simp only [idsOf, List.map_cons, List.map_nil, makeDomNode]
    refine List.Pairwise.cons ?_ (List.Pairwise.cons ?_ (List.Pairwise.cons ?_
      (List.Pairwise.cons ?_ (List.Pairwise.cons (by intro b hb; simp at hb)
        List.Pairwise.nil)))) <;>
      intro b hb <;> simp only [List.mem_cons, List.not_mem_nil, or_false] at hb
    · rcases hb with rfl | rfl | rfl | rfl <;> omega
    · rcases hb with rfl | rfl | rfl <;> omega
    · rcases hb with rfl | rfl <;> omega
    · rcases hb with rfl
      omega
  · intro n hn
    simp only [List.mem_cons, List.not_mem_nil, or_false] at hn
    rcases hn with rfl | rfl | rfl | rfl | rfl
    all_goals simp only [makeDomNode]
    all_goals omega
  · intro n hn
    simp only [List.mem_cons, List.not_mem_nil, or_false] at hn
    rcases hn with rfl | rfl | rfl | rfl | rfl
    all_goals exact ⟨rfl, rfl⟩
  · intro n hn c hc
    simp only [List.mem_cons, List.not_mem_nil, or_false] at hn
    rcases hn with rfl | rfl | rfl | rfl | rfl
    all_goals simp only [makeDomNode, List.mem_singleton, List.not_mem_nil] at hc
    all_goals rw [hc]
    · exact Or.inl (by simp [idsOf, makeDomNode])
    · exact Or.inl (by simp [idsOf, makeDomNode])
    · exact Or.inl (by simp [idsOf, makeDomNode])
    · exact Or.inl (by simp [idsOf, makeDomNode])
    · exact Or.inr rfl

/-! ### Assembling the whole built graph -/

theorem sectionAt_of_parts {cfg : Config} {NS ns : List Node} {tag : String}
    {sid count : Nat} (hnd : (idsOf NS).Nodup) (hsub : ∀ x ∈ ns, x ∈ NS)
    (h : SectionParts cfg tag ns sid count) : SectionAt cfg NS tag sid count := by
  obtain ⟨sec, hhead, hid, htext, hdt, trs, hmem, hch, hlen, hrs⟩ := h
  have hsec : sec ∈ NS := hsub sec (head?_mem hhead)
  refine ⟨sec, ?_, htext, hdt, trs, fun x hx => hsub x (hmem x hx), hch, hlen,
    rowsSpec_mono hsub hrs⟩
  rw [← hid]
  exact indexById_of_mem hnd hsec

theorem buildShape_assemble (cfg : Config) (tcls : List Nat)
    (tattrs : List (String × String))
    (hPart fPart : Option (Nat × List Node)) (bid n0 n1 n2 n3 n4 : Nat)
    (bodyNs wrapNs : List Node)
    (hIncH : IncrRange (n0 + 1) n1 (optNs hPart))
    (hIncB : IncrRange n1 n2 bodyNs)
    (hIncF : IncrRange n2 n3 (optNs fPart))
    (hIncW : IncrRange n3 n4 wrapNs)
    (hle1 : n0 + 1 ≤ n1) (hle2 : n1 ≤ n2) (hle3 : n2 ≤ n3) (hle4 : n3 ≤ n4)
    (hCbH : ClosedBlock (optNs hPart)) (hCbB : ClosedBlock bodyNs)
    (hCbF : ClosedBlock (optNs fPart))
    (hWc : ∀ n ∈ wrapNs, ∀ c ∈ n.children, c ∈ idsOf wrapNs ∨ c = n0)
    (hPlH : cfg.csvData = none → PlainBlock (optNs hPart))
    (hPlB : cfg.csvData = none → PlainBlock bodyNs)
    (hPlF : cfg.csvData = none → PlainBlock (optNs fPart))
    (hPlW : ∀ n ∈ wrapNs, n.text = false ∧ n.dataTag = "div")
    (hHsec : ∀ hp, hPart = some hp → SectionParts cfg "thead" (optNs hPart) hp.1 1)
    (hFsec : ∀ fp, fPart = some fp → SectionParts cfg "tfoot" (optNs fPart) fp.1 1)
    (hBsec : SectionParts cfg "tbody" bodyNs bid (bodyCountOf cfg))
    (hHsome : hPart.isSome = cfg.includeHead)
    (hFsome : fPart.isSome = cfg.includeFoot) :
    BuildShape cfg
      ({ makeDomNode n0 "table" tcls tattrs with
          children := optIds hPart ++ [bid] ++ optIds fPart } ::
        (optNs hPart ++ bodyNs ++ optNs fPart ++ wrapNs)) := by
  have hrest : IncrRange (n0 + 1) n4 (optNs hPart ++ bodyNs ++ optNs fPart ++ wrapNs) := by
    refine IncrRange.append (IncrRange.append (IncrRange.append hIncH hIncB hle1 hle2)
      hIncF (by omega) hle3) hIncW (by omega) hle4
  have hall : IncrRange n0 n4
      ({ makeDomNode n0 "table" tcls tattrs with
          children := optIds hPart ++ [bid] ++ optIds fPart } ::
        (optNs hPart ++ bodyNs ++ optNs fPart ++ wrapNs)) :=
    IncrRange.cons_ir (Nat.le_refl _) (Nat.lt_succ_self _) hrest (by omega)
  have hnd := hall.nodup
  have hsubH : ∀ x ∈ optNs hPart,
      x ∈ ({ makeDomNode n0 "table" tcls tattrs with
          children := optIds hPart ++ [bid] ++ optIds fPart } ::
        (optNs hPart ++ bodyNs ++ optNs fPart ++ wrapNs)) := fun x hx =>
    List.mem_cons_of_mem _ (List.mem_append_left _ (List.mem_append_left _
      (List.mem_append_left _ hx)))
  have hsubB : ∀ x ∈ bodyNs,
      x ∈ ({ makeDomNode n0 "table" tcls tattrs with
          children := optIds hPart ++ [bid] ++ optIds fPart } ::
        (optNs hPart ++ bodyNs ++ optNs fPart ++ wrapNs)) := fun x hx =>
    List.mem_cons_of_mem _ (List.mem_append_left _ (List.mem_append_left _
      (List.mem_append_right _ hx)))
  have hsubF : ∀ x ∈ optNs fPart,
      x ∈ ({ makeDomNode n0 "table" tcls tattrs with
          children := optIds hPart ++ [bid] ++ optIds fPart } ::
        (optNs hPart ++ bodyNs ++ optNs fPart ++ wrapNs)) := fun x hx =>
    List.mem_cons_of_mem _ (List.mem_append_left _ (List.mem_append_right _ hx))
  have hsubW : ∀ x ∈ wrapNs,
      x ∈ ({ makeDomNode n0 "table" tcls tattrs with
          children := optIds hPart ++ [bid] ++ optIds fPart } ::
        (optNs hPart ++ bodyNs ++ optNs fPart ++ wrapNs)) := fun x hx =>
    List.mem_cons_of_mem _ (List.mem_append_right _ hx)
  have hBne : bodyNs ≠ [] := by
    obtain ⟨sec, hhead, _⟩ := hBsec
    intro hcon
    rw [hcon] at hhead
    simp at hhead
  refine ⟨hnd, ?_, ?_, ?_, ⟨_, rfl, rfl, rfl, ?_⟩⟩
  · intro n hn c hc
    rcases List.mem_cons.mp hn with rfl | hn2
    · simp only [makeDomNode] at hc
      rcases List.mem_append.mp hc with hc1 | hcf
      · rcases List.mem_append.mp hc1 with hch | hcb
        · cases hPart with
          | none => simp [optIds] at hch
          | some hp =>
            simp only [optIds, List.mem_singleton] at hch
            obtain ⟨sec, hhead, hid, _⟩ := hHsec hp rfl
            rw [hch]
            exact mem_idsOf.mpr ⟨sec, hsubH sec (head?_mem hhead), hid⟩
        · rw [List.mem_singleton] at hcb
          obtain ⟨sec, hhead, hid, _⟩ := hBsec
          rw [hcb]
          exact mem_idsOf.mpr ⟨sec, hsubB sec (head?_mem hhead), hid⟩
      · cases fPart with
        | none => simp [optIds] at hcf
        | some fp =>
          simp only [optIds, List.mem_singleton] at hcf
          obtain ⟨sec, hhead, hid, _⟩ := hFsec fp rfl
          rw [hcf]
          exact mem_idsOf.mpr ⟨sec, hsubF sec (head?_mem hhead), hid⟩
    · rcases List.mem_append.mp hn2 with hn3 | hnW
      · rcases List.mem_append.mp hn3 with hn4 | hnF
        · rcases List.mem_append.mp hn4 with hnH | hnB
          · obtain ⟨x, hx1, hx2⟩ := mem_idsOf.mp (hCbH n hnH c hc)
            exact mem_idsOf.mpr ⟨x, hsubH x hx1, hx2⟩
          · obtain ⟨x, hx1, hx2⟩ := mem_idsOf.mp (hCbB n hnB c hc)
            exact mem_idsOf.mpr ⟨x, hsubB x hx1, hx2⟩
        · obtain ⟨x, hx1, hx2⟩ := mem_idsOf.mp (hCbF n hnF c hc)
          exact mem_idsOf.mpr ⟨x, hsubF x hx1, hx2⟩
      · rcases hWc n hnW c hc with hcw | hcw
        · obtain ⟨x, hx1, hx2⟩ := mem_idsOf.mp hcw
          exact mem_idsOf.mpr ⟨x, hsubW x hx1, hx2⟩
        · rw [hcw]
          exact mem_idsOf.mpr ⟨_, List.mem_cons_self _ _, rfl⟩
  · intro hnone
    intro n hn
    rcases List.mem_cons.mp hn with rfl | hn2
    · exact ⟨rfl, by simp [makeDomNode], by simp [makeDomNode]⟩
    · rcases List.mem_append.mp hn2 with hn3 | hnW
      · rcases List.mem_append.mp hn3 with hn4 | hnF
        · rcases List.mem_append.mp hn4 with hnH | hnB
          · exact hPlH hnone n hnH
          · exact hPlB hnone n hnB
        · exact hPlF hnone n hnF
      · obtain ⟨ht, hd⟩ := hPlW n hnW
        exact ⟨ht, by rw [hd]; simp, by rw [hd]; simp⟩
  · have := List.length_pos.mpr hBne
    simp only [List.length_cons, List.length_append]
    omega
  · refine ⟨bid, hPart.map Prod.fst, fPart.map Prod.fst,
      sectionAt_of_parts hnd hsubB hBsec, ?_, ?_, ?_, ?_, ?_⟩
    · rw [← hHsome]
      cases hPart <;> simp
    · rw [← hFsome]
      cases fPart <;> simp
    · simp only [makeDomNode]
      cases hPart <;> cases fPart <;> rfl
    · intro hid hmem
      cases hPart with
      | none => simp at hmem
      | some hp =>
        have hpe : hp.1 = hid := by simpa using hmem
        rw [← hpe]
        exact sectionAt_of_parts hnd hsubH (hHsec hp rfl)
    · intro fid hmem
      cases fPart with
      | none => simp at hmem
      | some fp =>
        have hpe : fp.1 = fid := by simpa using hmem
        rw [← hpe]
        exact sectionAt_of_parts hnd hsubF (hFsec fp rfl)

theorem build_spec (cfg : Config) : BuildShape cfg (build cfg).nodes := by
  rcases hTC : classIds (listOfClass cfg.tableClass) ⟨[], [], 0⟩ with ⟨tcls, st1⟩
  rcases hHP : (if cfg.includeHead then
      ((some ((makeHead cfg { st1 with nextId := st1.nextId + 1 }).1,
              (makeHead cfg { st1 with nextId := st1.nextId + 1 }).2.1) :
         Option (Nat × List Node)),
       (makeHead cfg { st1 with nextId := st1.nextId + 1 }).2.2)
    else ((none : Option (Nat × List Node)), { st1 with nextId := st1.nextId + 1 }))
    with ⟨hOpt, stB⟩
  have hHfacts :
      st1.nextId + 1 ≤ stB.nextId ∧
      IncrRange (st1.nextId + 1) stB.nextId (optNs hOpt) ∧
      ClosedBlock (optNs hOpt) ∧
      (cfg.csvData = none → PlainBlock (optNs hOpt)) ∧
      (∀ hp, hOpt = some hp → SectionParts cfg "thead" (optNs hOpt) hp.1 1) ∧
      hOpt.isSome = cfg.includeHead := by
    cases hIH : cfg.includeHead with
    | false =>
      rw [hIH] at hHP
      simp only [Bool.false_eq_true, if_false] at hHP
      injection hHP with h1 h2
      subst h1 h2
      exact ⟨Nat.le_refl _, IncrRange.nil_ir, closedBlock_nil,
        fun _ => plainBlock_nil, fun hp hhp => Option.noConfusion hhp, rfl⟩
    | true =>
      rw [hIH] at hHP
      simp only [if_true] at hHP
      injection hHP with h1 h2
      subst h1 h2
      have sh := makeHead_spec cfg { st1 with nextId := st1.nextId + 1 }
      obtain ⟨le, ir, cb, sec, hhead, hsid, htext, hdt, hsecp, hplain⟩ := sh
      refine ⟨le, ir, cb, hplain, ?_, rfl⟩
      intro hp hhp
      injection hhp with hhp2
      subst hhp2
      exact ⟨sec, hhead, hsid, htext, hdt, hsecp⟩
  obtain ⟨hBle, hBir, hBcb, hBpl, hBsecf, hBsome⟩ := hHfacts
  rcases hBP : makeBody cfg stB with ⟨bid, bodyNs, stC⟩
  have sb := makeBody_spec cfg stB
  rw [hBP] at sb
  dsimp only at sb
  obtain ⟨ble, bir, bcb, bsec, bhead, bsid, btext, bdt,
    ⟨btrs, btm, btch, btlen, btspec⟩, bplain⟩ := sb
  have hBsecp : SectionParts cfg "tbody" bodyNs bid (bodyCountOf cfg) :=
    ⟨bsec, bhead, bsid, btext, bdt, btrs, btm, btch, btlen, btspec⟩
  rcases hFP : (if cfg.includeFoot then
      ((some ((makeFoot cfg stC).1, (makeFoot cfg stC).2.1) : Option (Nat × List Node)),
       (makeFoot cfg stC).2.2)
    else ((none : Option (Nat × List Node)), stC)) with ⟨fOpt, stD⟩
  have hFfacts :
      stC.nextId ≤ stD.nextId ∧
      IncrRange stC.nextId stD.nextId (optNs fOpt) ∧
      ClosedBlock (optNs fOpt) ∧
      (cfg.csvData = none → PlainBlock (optNs fOpt)) ∧
      (∀ fp, fOpt = some fp → SectionParts cfg "tfoot" (optNs fOpt) fp.1 1) ∧
      fOpt.isSome = cfg.includeFoot := by
    cases hIF : cfg.includeFoot with
    | false =>
      rw [hIF] at hFP
      simp only [Bool.false_eq_true, if_false] at hFP
      injection hFP with h1 h2
      subst h1 h2
      exact ⟨Nat.le_refl _, IncrRange.nil_ir, closedBlock_nil,
        fun _ => plainBlock_nil, fun fp hfp => Option.noConfusion hfp, rfl⟩
    | true =>
      rw [hIF] at hFP
      simp only [if_true] at hFP
      injection hFP with h1 h2
      subst h1 h2
      have sf := makeFoot_spec cfg stC
      obtain ⟨le, ir, cb, sec, hhead, hsid, htext, hdt, hsecp, hplain⟩ := sf
      refine ⟨le, ir, cb, hplain, ?_, rfl⟩
      intro fp hfp
      injection hfp with hfp2
      subst hfp2
      exact ⟨sec, hhead, hsid, htext, hdt, hsecp⟩
  obtain ⟨hFle, hFir, hFcb, hFpl, hFsecf, hFsome⟩ := hFfacts
  rcases hWP : (if cfg.wrapInSection then makeWrap st1.nextId stD else ([], stD))
    with ⟨wrapNs, stE⟩
  have hWfacts :
      stD.nextId ≤ stE.nextId ∧
      IncrRange stD.nextId stE.nextId wrapNs ∧
      (∀ n ∈ wrapNs, n.text = false ∧ n.dataTag = "div") ∧
      (∀ n ∈ wrapNs, ∀ c ∈ n.children, c ∈ idsOf wrapNs ∨ c = st1.nextId) := by
    cases hW : cfg.wrapInSection with
    | false =>
      rw [hW] at hWP
      simp only [Bool.false_eq_true, if_false] at hWP
      injection hWP with h1 h2
      subst h1 h2
      exact ⟨Nat.le_refl _, IncrRange.nil_ir, by simp, by simp⟩
    | true =>
      rw [hW] at hWP
      simp only [if_true] at hWP
      have sw := makeWrap_spec st1.nextId stD
      rw [hWP] at sw
      dsimp only at sw
      exact sw
  obtain ⟨wle, wir, wpl, wcl⟩ := hWfacts
  have hnodes : (build cfg).nodes =
      { makeDomNode st1.nextId "table" tcls
          (if cfg.addAriaRole then [("role", "table")] else []) with
          children := optIds hOpt ++ [bid] ++ optIds fOpt } ::
        (optNs hOpt ++ bodyNs ++ optNs fOpt ++ wrapNs) := by
    simp only [build]
    rw [hTC]
    simp only [freshId]
    rw [hHP]
    dsimp only
    rw [hBP]
    dsimp only
    rw [hFP]
    dsimp only
    rw [hWP]
  rw [hnodes]
  exact buildShape_assemble cfg tcls _ hOpt fOpt bid st1.nextId stB.nextId
    stC.nextId stD.nextId stE.nextId bodyNs wrapNs hBir bir hFir wir hBle ble
    hFle wle hBcb bcb hFcb wcl hBpl bplain hFpl wpl hBsecf hFsecf hBsecp
    hBsome hFsome

/-! ### From the built shape to the extractor's output -/

theorem normalizeTag_eq {n : Node} {s : String} (h : n.dataTag = s)
    (hs : ¬ s = "") (hl : toLowerStr s = s) : normalizeTag n = s := by
  simp only [normalizeTag, h]
  rw [if_pos hs]
  exact hl

theorem getText_of_cellAt {cfg : Config} {NS : List Node} {cell : Node}
    {txt : String} (hnd : (idsOf NS).Nodup) (hct : cell.text = false)
    (hca : CellAt cfg NS cell txt) {fuel : Nat} (hf : 3 ≤ fuel) :
    getTextFromNode NS fuel (some cell) = txt := by
  obtain ⟨f, rfl⟩ : ∃ f, fuel = f + 3 := ⟨fuel - 3, by omega⟩
  rcases hca with ⟨hcsv, hchld, htxt⟩ | ⟨hd, hsf, tn, htn, hchld, htt, htv⟩ |
    ⟨hd, hsf, sp, hsp, hst, hsdt, hchld, tn, htn, hch2, htt, htv⟩
  · subst htxt
    simp [getTextFromNode, hct, hchld]
  · subst htv
    have hidx := indexById_of_mem hnd htn
    simp [getTextFromNode, hct, hchld, hidx, htt]
  · subst htv
    have hidxS := indexById_of_mem hnd hsp
    have hidxT := indexById_of_mem hnd htn
    simp [getTextFromNode, hct, hchld, hidxS, hst, hch2, hidxT, htt]

theorem readCells_eq {cfg : Config} {tag : String} {srow : Option (List String)}
    {NS : List Node} (hnd : (idsOf NS).Nodup) (hlen : 2 ≤ NS.length)
    (htag : tag = "th" ∨ tag = "td") :
    ∀ (cells : List Node) (c : Nat), (∀ x ∈ cells, x ∈ NS) →
      CellsSpec cfg tag srow NS cells c →
      List.map (fun cell => getTextFromNode NS (NS.length + 1) (some cell))
        (List.filter (fun n => normalizeTag n == "td" || normalizeTag n == "th")
          (List.filterMap id (List.map (indexById NS) (idsOf cells)))) =
      cellTexts cfg srow cells.length c
  | [], _, _, _ => rfl
  | cell :: rest, c, hmem, hcs => by
    obtain ⟨hct, hctag, hdt, hca, hrest⟩ := hcs
    have hidx := indexById_of_mem hnd (hmem cell (List.mem_cons_self _ _))
    have hnt : normalizeTag cell = tag := by
      rcases htag with rfl | rfl <;> exact normalizeTag_eq hdt (by decide) (by decide)
    have hkeep : (fun n => normalizeTag n == "td" || normalizeTag n == "th") cell
        = true := by
      show (normalizeTag cell == "td" || normalizeTag cell == "th") = true
      rw [hnt]
      rcases htag with rfl | rfl <;> decide
    have hmem2 : ∀ x ∈ rest, x ∈ NS := fun x hx => hmem x (List.mem_cons_of_mem _ hx)
    have ih := readCells_eq hnd hlen htag rest (c + 1) hmem2 hrest
    have htext : getTextFromNode NS (NS.length + 1) (some cell) =
        cellTextValue cfg srow c :=
      getText_of_cellAt hnd hct hca (by omega)
    rw [show idsOf (cell :: rest) = cell._id :: idsOf rest from rfl]
    simp only [List.map_cons, hidx]
    rw [show List.filterMap id (some cell :: List.map (indexById NS) (idsOf rest)) =
      cell :: List.filterMap id (List.map (indexById NS) (idsOf rest)) from rfl]
    rw [List.filter_cons, if_pos hkeep]
    simp only [List.map_cons]
    rw [htext, ih]
    rfl

theorem readRows_eq {cfg : Config} {sectionTag : String} {NS : List Node}
    (hnd : (idsOf NS).Nodup) (hlen : 2 ≤ NS.length) :
    ∀ (trs : List Node) (r : Nat), (∀ x ∈ trs, x ∈ NS) →
      RowsSpec cfg sectionTag NS trs r →
      List.map (fun tr => List.map
          (fun cell => getTextFromNode NS (NS.length + 1) (some cell))
          (List.filter (fun n => normalizeTag n == "td" || normalizeTag n == "th")
            (List.filterMap id (List.map (indexById NS) tr.children))))
        (List.filter (fun n => normalizeTag n == "tr")
          (List.filterMap id (List.map (indexById NS) (idsOf trs)))) =
      sectionTexts cfg sectionTag trs.length r
  | [], _, _, _ => rfl
  | tr :: rest, r, hmem, hrs => by
    obtain ⟨htt, httag, hdt, ⟨cells, hcmem, htch, hclen, hcspec⟩, hrest⟩ := hrs
    have hidx := indexById_of_mem hnd (hmem tr (List.mem_cons_self _ _))
    have hkeep : (fun n => normalizeTag n == "tr") tr = true := by
      show (normalizeTag tr == "tr") = true
      rw [normalizeTag_eq hdt (by decide) (by decide)]
      decide
    have hmem2 : ∀ x ∈ rest, x ∈ NS := fun x hx => hmem x (List.mem_cons_of_mem _ hx)
    have ih := readRows_eq hnd hlen rest (r + 1) hmem2 hrest
    have hcells := readCells_eq hnd hlen (cellTagOf_cases cfg sectionTag) cells 0
      hcmem hcspec
    rw [show idsOf (tr :: rest) = tr._id :: idsOf rest from rfl]
    simp only [List.map_cons, hidx]
    rw [show List.filterMap id (some tr :: List.map (indexById NS) (idsOf rest)) =
      tr :: List.filterMap id (List.map (indexById NS) (idsOf rest)) from rfl]
    rw [List.filter_cons, if_pos hkeep]
    simp only [List.map_cons]
    rw [htch, hcells, hclen, ih]
    rfl

theorem readSection_eq {cfg : Config} {NS : List Node} {tag : String}
    (hnd : (idsOf NS).Nodup) (hlen : 2 ≤ NS.length) {sec : Node} {count : Nat}
    (hex : ∃ trs, (∀ x ∈ trs, x ∈ NS) ∧ sec.children = idsOf trs ∧
      trs.length = count ∧ RowsSpec cfg tag NS trs 0) :
    readSectionRows NS (some sec) = sectionTexts cfg tag count 0 := by
  obtain ⟨trs, hmem, hchd, hlen2, hrs⟩ := hex
  simp only [readSectionRows]
  rw [hchd]
  rw [readRows_eq hnd hlen trs 0 hmem hrs, hlen2]

theorem extract_of_buildShape {cfg : Config} {NS : List Node}
    (bs : BuildShape cfg NS) :
    extractRowsFromXscp (some NS) =
      some { rows := expectedRows cfg, hasHeader := cfg.includeHead } := by
  obtain ⟨hnd, hcl, hpl, hlen, table, hhd, htt, htdt, bid, hPart, fPart,
    hBsec, hHs, hFs, hch, hHsec, hFsec⟩ := bs
  obtain ⟨secB, hidxB, httB, hdtB, htrsB⟩ := hBsec
  have hBR : readSectionRows NS (some secB) =
      sectionTexts cfg "tbody" (bodyCountOf cfg) 0 :=
    readSection_eq hnd hlen htrsB
  have hnB : normalizeTag secB = "tbody" :=
    normalizeTag_eq hdtB (by decide) (by decide)
  cases NS with
  | nil => simp at hhd
  | cons t0 tl =>
  obtain rfl : t0 = table := by simpa using hhd
  have hntab : normalizeTag t0 = "table" :=
    normalizeTag_eq htdt (by decide) (by decide)
  have hft : (t0 :: tl).find? (fun n => normalizeTag n == "table") = some t0 :=
    List.find?_cons_of_pos tl (by simp [hntab])
  rw [extractRowsFromXscp]
  rw [if_neg (by simp : ¬((t0 :: tl).isEmpty = true))]
  rw [hft]
  dsimp only
  rw [hch]
  rcases hPart with _ | hid
  · have hH : cfg.includeHead = false := by simpa using hHs
    rcases fPart with _ | fid
    · rw [show Option.toList (none : Option Nat) ++ [bid] ++
        Option.toList (none : Option Nat) = [bid] from rfl]
      rw [show List.map (indexById (t0 :: tl)) [bid] =
        [indexById (t0 :: tl) bid] from rfl]
      rw [hidxB]
      rw [show List.filterMap id [some secB] = [secB] from rfl]
      have hfh : List.find? (fun n => normalizeTag n == "thead") [secB] = none := by
        rw [List.find?_cons_of_neg _ (by simp [hnB])]
        rfl
      have hfb : List.find? (fun n => normalizeTag n == "tbody") [secB] =
          some secB := List.find?_cons_of_pos _ (by simp [hnB])
      rw [hfh, hfb, show readSectionRows (t0 :: tl) none = [] from rfl, hBR]
      simp [expectedRows, hH]
    · obtain ⟨secF, hidxF, httF, hdtF, htrsF⟩ := hFsec fid rfl
      have hnF : normalizeTag secF = "tfoot" :=
        normalizeTag_eq hdtF (by decide) (by decide)
      rw [show Option.toList (none : Option Nat) ++ [bid] ++
        Option.toList (some fid) = [bid, fid] from rfl]
      rw [show List.map (indexById (t0 :: tl)) [bid, fid] =
        [indexById (t0 :: tl) bid, indexById (t0 :: tl) fid] from rfl]
      rw [hidxB, hidxF]
      rw [show List.filterMap id [some secB, some secF] = [secB, secF] from rfl]
      have hfh : List.find? (fun n => normalizeTag n == "thead") [secB, secF] =
          none := by
        rw [List.find?_cons_of_neg _ (by simp [hnB]),
          List.find?_cons_of_neg _ (by simp [hnF])]
        rfl
      have hfb : List.find? (fun n => normalizeTag n == "tbody") [secB, secF] =
          some secB := List.find?_cons_of_pos _ (by simp [hnB])
      rw [hfh, hfb, show readSectionRows (t0 :: tl) none = [] from rfl, hBR]
      simp [expectedRows, hH]
  · obtain ⟨secH, hidxH, httH, hdtH, htrsH⟩ := hHsec hid rfl
    have hH : cfg.includeHead = true := hHs.mp rfl
    have hnH : normalizeTag secH = "thead" :=
      normalizeTag_eq hdtH (by decide) (by decide)
    have hHR : readSectionRows (t0 :: tl) (some secH) =
        sectionTexts cfg "thead" 1 0 := readSection_eq hnd hlen htrsH
    rcases fPart with _ | fid
    · rw [show Option.toList (some hid) ++ [bid] ++
        Option.toList (none : Option Nat) = [hid, bid] from rfl]
      rw [show List.map (indexById (t0 :: tl)) [hid, bid] =
        [indexById (t0 :: tl) hid, indexById (t0 :: tl) bid] from rfl]
      rw [hidxH, hidxB]
      rw [show List.filterMap id [some secH, some secB] = [secH, secB] from rfl]
      have hfh : List.find? (fun n => normalizeTag n == "thead") [secH, secB] =
          some secH := List.find?_cons_of_pos _ (by simp [hnH])
      have hfb : List.find? (fun n => normalizeTag n == "tbody") [secH, secB] =
          some secB := by
        rw [List.find?_cons_of_neg _ (by simp [hnH])]
        exact List.find?_cons_of_pos _ (by simp [hnB])
      rw [hfh, hfb, hHR, hBR]
      simp [expectedRows, hH, sectionTexts]
    · obtain ⟨secF, hidxF, httF, hdtF, htrsF⟩ := hFsec fid rfl
      have hnF : normalizeTag secF = "tfoot" :=
        normalizeTag_eq hdtF (by decide) (by decide)
      rw [show Option.toList (some hid) ++ [bid] ++
        Option.toList (some fid) = [hid, bid, fid] from rfl]
      rw [show List.map (indexById (t0 :: tl)) [hid, bid, fid] =
        [indexById (t0 :: tl) hid, indexById (t0 :: tl) bid,
         indexById (t0 :: tl) fid] from rfl]
      rw [hidxH, hidxB, hidxF]
      rw [show List.filterMap id [some secH, some secB, some secF] =
        [secH, secB, secF] from rfl]
      have hfh : List.find? (fun n => normalizeTag n == "thead")
          [secH, secB, secF] = some secH := List.find?_cons_of_pos _ (by simp [hnH])
      have hfb : List.find? (fun n => normalizeTag n == "tbody")
          [secH, secB, secF] = some secB := by
        rw [List.find?_cons_of_neg _ (by simp [hnH])]
        exact List.find?_cons_of_pos _ (by simp [hnB])
      rw [hfh, hfb, hHR, hBR]
      simp [expectedRows, hH, sectionTexts]

theorem footer_of_buildShape {cfg : Config} {NS : List Node}
    (bs : BuildShape cfg NS) :
    footerRowsOf NS = if cfg.includeFoot then [rowTexts cfg "tfoot" 0] else [] := by
  obtain ⟨hnd, hcl, hpl, hlen, table, hhd, htt, htdt, bid, hPart, fPart,
    hBsec, hHs, hFs, hch, hHsec, hFsec⟩ := bs
  obtain ⟨secB, hidxB, httB, hdtB, htrsB⟩ := hBsec
  have hnB : normalizeTag secB = "tbody" :=
    normalizeTag_eq hdtB (by decide) (by decide)
  cases NS with
  | nil => simp at hhd
  | cons t0 tl =>
  obtain rfl : t0 = table := by simpa using hhd
  have hntab : normalizeTag t0 = "table" :=
    normalizeTag_eq htdt (by decide) (by decide)
  have hft : (t0 :: tl).find? (fun n => normalizeTag n == "table") = some t0 :=
    List.find?_cons_of_pos tl (by simp [hntab])
  rw [footerRowsOf]
  rw [hft]
  dsimp only
  rw [hch]
  rcases fPart with _ | fid
  · have hF : cfg.includeFoot = false := by simpa using hFs
    rcases hPart with _ | hid
    · rw [show Option.toList (none : Option Nat) ++ [bid] ++
        Option.toList (none : Option Nat) = [bid] from rfl]
      rw [show List.map (indexById (t0 :: tl)) [bid] =
        [indexById (t0 :: tl) bid] from rfl]
      rw [hidxB]
      rw [show List.filterMap id [some secB] = [secB] from rfl]
      have hff : List.find? (fun n => normalizeTag n == "tfoot") [secB] = none := by
        rw [List.find?_cons_of_neg _ (by simp [hnB])]
        rfl
      rw [hff, show readSectionRows (t0 :: tl) none = [] from rfl, hF]
      rfl
    · obtain ⟨secH, hidxH, httH, hdtH, htrsH⟩ := hHsec hid rfl
      have hnH : normalizeTag secH = "thead" :=
        normalizeTag_eq hdtH (by decide) (by decide)
      rw [show Option.toList (some hid) ++ [bid] ++
        Option.toList (none : Option Nat) = [hid, bid] from rfl]
      rw [show List.map (indexById (t0 :: tl)) [hid, bid] =
        [indexById (t0 :: tl) hid, indexById (t0 :: tl) bid] from rfl]
      rw [hidxH, hidxB]
      rw [show List.filterMap id [some secH, some secB] = [secH, secB] from rfl]
      have hff : List.find? (fun n => normalizeTag n == "tfoot") [secH, secB] =
          none := by
        rw [List.find?_cons_of_neg _ (by simp [hnH]),
          List.find?_cons_of_neg _ (by simp [hnB])]
        rfl
      rw [hff, show readSectionRows (t0 :: tl) none = [] from rfl, hF]
      rfl
  · obtain ⟨secF, hidxF, httF, hdtF, htrsF⟩ := hFsec fid rfl
    have hF : cfg.includeFoot = true := hFs.mp rfl
    have hnF : normalizeTag secF = "tfoot" :=
      normalizeTag_eq hdtF (by decide) (by decide)
    have hFR : readSectionRows (t0 :: tl) (some secF) =
        sectionTexts cfg "tfoot" 1 0 := readSection_eq hnd hlen htrsF
    rcases hPart with _ | hid
    · rw [show Option.toList (none : Option Nat) ++ [bid] ++
        Option.toList (some fid) = [bid, fid] from rfl]
      rw [show List.map (indexById (t0 :: tl)) [bid, fid] =
        [indexById (t0 :: tl) bid, indexById (t0 :: tl) fid] from rfl]
      rw [hidxB, hidxF]
      rw [show List.filterMap id [some secB, some secF] = [secB, secF] from rfl]
      have hff : List.find? (fun n => normalizeTag n == "tfoot") [secB, secF] =
          some secF := by
        rw [List.find?_cons_of_neg _ (by simp [hnB])]
        exact List.find?_cons_of_pos _ (by simp [hnF])
      rw [hff, hFR, hF]
      rfl
    · obtain ⟨secH, hidxH, httH, hdtH, htrsH⟩ := hHsec hid rfl
      have hnH : normalizeTag secH = "thead" :=
        normalizeTag_eq hdtH (by decide) (by decide)
      rw [show Option.toList (some hid) ++ [bid] ++
        Option.toList (some fid) = [hid, bid, fid] from rfl]
      rw [show List.map (indexById (t0 :: tl)) [hid, bid, fid] =
        [indexById (t0 :: tl) hid, indexById (t0 :: tl) bid,
         indexById (t0 :: tl) fid] from rfl]
      rw [hidxH, hidxB, hidxF]
      rw [show List.filterMap id [some secH, some secB, some secF] =
        [secH, secB, secF] from rfl]
      have hff : List.find? (fun n => normalizeTag n == "tfoot")
          [secH, secB, secF] = some secF := by
        rw [List.find?_cons_of_neg _ (by simp [hnH]),
          List.find?_cons_of_neg _ (by simp [hnB])]
        exact List.find?_cons_of_pos _ (by simp [hnF])
      rw [hff, hFR, hF]
      rfl

/-! ### The recovered grid in terms of the source grid -/

theorem drop_eq_get_cons_gen {α : Type} :
    ∀ (l : List α) (c : Nat) (h : c < l.length),
      l.drop c = l.get ⟨c, h⟩ :: l.drop (c + 1)
  | _ :: _, 0, _ => rfl
  | a :: t, c + 1, h =>
    drop_eq_get_cons_gen t c (by simp only [List.length_cons] at h; omega)
  | [], c, h => absurd h (by simp)

theorem cellTexts_some {cfg : Config} (hd : ∃ d, cfg.csvData = some d)
    (r : List String) :
    ∀ (m c : Nat), r.length = c + m → cellTexts cfg (some r) m c = r.drop c := by
  obtain ⟨d, hd⟩ := hd
  intro m
  induction m with
  | zero =>
    intro c hc
    rw [show cellTexts cfg (some r) 0 c = [] from rfl,
      show c = r.length from by omega, List.drop_length]
  | succ m ih =>
    intro c hc
    have hlt : c < r.length := by omega
    rw [show cellTexts cfg (some r) (m + 1) c =
      cellTextValue cfg (some r) c :: cellTexts cfg (some r) m (c + 1) from rfl]
    rw [ih (c + 1) (by omega)]
    rw [drop_eq_get_cons_gen r c hlt]
    congr 1
    simp [cellTextValue, hd, List.getD, List.getElem?_eq_getElem hlt]

theorem sectionTexts_tbody_drop {cfg : Config} {d : List (List String)} {k : Nat}
    (hd : cfg.csvData = some d)
    (hrect : ∀ row ∈ d, row.length = cellCountOf cfg)
    (hsrc : ∀ r, sourceRowOf cfg "tbody" r = d.get? (r + k)) :
    ∀ (m r : Nat), r + k + m = d.length →
      sectionTexts cfg "tbody" m r = d.drop (r + k) := by
  intro m
  induction m with
  | zero =>
    intro r h
    rw [show sectionTexts cfg "tbody" 0 r = [] from rfl,
      show r + k = d.length from by omega, List.drop_length]
  | succ m ih =>
    intro r h
    have hlt : r + k < d.length := by omega
    rw [show sectionTexts cfg "tbody" (m + 1) r =
      rowTexts cfg "tbody" r :: sectionTexts cfg "tbody" m (r + 1) from rfl]
    rw [ih (r + 1) (by omega)]
    rw [drop_eq_get_cons_gen d (r + k) hlt]
    rw [show r + 1 + k = r + k + 1 from by omega]
    congr 1
    simp only [rowTexts]
    rw [hsrc r, List.get?_eq_get hlt]
    have := cellTexts_some ⟨d, hd⟩ (d.get ⟨r + k, hlt⟩) (cellCountOf cfg) 0
      (by rw [hrect _ (List.get_mem d _ _)]; omega)
    simpa using this

theorem expectedRows_eq_grid (cfg : Config) (g : List (List String))
    (hcsv : cfg.csvData = some g)
    (hhd : cfg.includeHead = cfg.csvHasHeaderRow)
    (hrect : ∀ r ∈ g, r.length = effectiveCols cfg)
    (hne : cfg.includeHead = true → g ≠ []) :
    expectedRows cfg = g := by
  have hcc : cellCountOf cfg = effectiveCols cfg := by simp [cellCountOf, hcsv]
  have hrect2 : ∀ r ∈ g, r.length = cellCountOf cfg := by
    intro r hr
    rw [hcc]
    exact hrect r hr
  have hbc : bodyCountOf cfg = effectiveRows cfg := by simp [bodyCountOf, hcsv]
  cases hH : cfg.csvHasHeaderRow with
  | false =>
    have hih : cfg.includeHead = false := by rw [hhd, hH]
    have hsrc : ∀ r, sourceRowOf cfg "tbody" r = g.get? (r + 0) := by
      intro r
      simp [sourceRowOf, hcsv, hH]
    have her : effectiveRows cfg = g.length := by simp [effectiveRows, hcsv, hH]
    simp only [expectedRows, hih, Bool.false_eq_true, if_false, List.nil_append]
    rw [hbc, her]
    have := sectionTexts_tbody_drop hcsv hrect2 hsrc g.length 0 (by omega)
    simpa using this
  | true =>
    have hih : cfg.includeHead = true := by rw [hhd, hH]
    obtain ⟨r0, rest, rfl⟩ : ∃ r0 rest, g = r0 :: rest := by
      cases g with
      | nil => exact absurd rfl (hne hih)
      | cons a t => exact ⟨a, t, rfl⟩
    have hsrc : ∀ r, sourceRowOf cfg "tbody" r = (r0 :: rest).get? (r + 1) := by
      intro r
      simp [sourceRowOf, hcsv, hH]
    have her : effectiveRows cfg = rest.length := by
      simp [effectiveRows, hcsv, hH]
    have hhr : rowTexts cfg "thead" 0 = r0 := by
      simp only [rowTexts]
      have hsrcH : sourceRowOf cfg "thead" 0 = some r0 := by
        simp [sourceRowOf, hcsv]
      rw [hsrcH]
      have := cellTexts_some ⟨_, hcsv⟩ r0 (cellCountOf cfg) 0
        (by rw [hrect2 r0 (by simp)]; omega)
      simpa using this
    simp only [expectedRows, hih, if_true]
    rw [hbc, her, hhr]
    have hb := sectionTexts_tbody_drop hcsv hrect2 hsrc rest.length 0
      (by simp only [List.length_cons]; omega)
    rw [hb]
    simp

/-! ### Blank recovery for grid-less builds -/

theorem cellTexts_blank {cfg : Config} (hcsv : cfg.csvData = none)
    (srow : Option (List String)) :
    ∀ (m c : Nat), ∀ t ∈ cellTexts cfg srow m c, t = "" := by
  intro m
  induction m with
  | zero =>
    intro c t ht
    simp [cellTexts] at ht
  | succ m ih =>
    intro c t ht
    rw [show cellTexts cfg srow (m + 1) c =
      cellTextValue cfg srow c :: cellTexts cfg srow m (c + 1) from rfl] at ht
    rcases List.mem_cons.mp ht with h | h
    · subst h
      simp [cellTextValue, hcsv]
    · exact ih (c + 1) t h

theorem sectionTexts_blank {cfg : Config} (hcsv : cfg.csvData = none)
    (tag : String) :
    ∀ (m r : Nat), ∀ row ∈ sectionTexts cfg tag m r, ∀ t ∈ row, t = "" := by
  intro m
  induction m with
  | zero =>
    intro r row hrow
    simp [sectionTexts] at hrow
  | succ m ih =>
    intro r row hrow
    rw [show sectionTexts cfg tag (m + 1) r =
      rowTexts cfg tag r :: sectionTexts cfg tag m (r + 1) from rfl] at hrow
    rcases List.mem_cons.mp hrow with h | h
    · subst h
      intro t ht
      simp only [rowTexts] at ht
      exact cellTexts_blank hcsv _ _ _ t ht
    · exact ih (r + 1) row h

theorem expectedRows_blank {cfg : Config} (hcsv : cfg.csvData = none) :
    ∀ row ∈ expectedRows cfg, ∀ t ∈ row, t = "" := by
  intro row hrow
  simp only [expectedRows] at hrow
  rcases List.mem_append.mp hrow with h | h
  · cases hih : cfg.includeHead with
    | false =>
      rw [hih] at h
      simp at h
    | true =>
      rw [hih] at h
      simp at h
      subst h
      intro t ht
      simp only [rowTexts] at ht
      exact cellTexts_blank hcsv _ _ _ t ht
  · exact sectionTexts_blank hcsv _ _ _ row h

/-! ### Claim C1: build-then-extract round trip -/

/-- C1.  Round-trip fidelity of cell text: with a source grid, no footer and
no span fallback, extraction returns the grid exactly — provided additionally
that the header flag mirrors the designated-header flag, that every grid row
has the maximal width, and that the grid is non-empty when a header section
is built.  Without those extra conditions the round trip fails (see the
counterexample: a ragged grid comes back padded). -/
theorem build_extract_roundtrip (cfg : Config) (g : List (List String))
    (hcsv : cfg.csvData = some g) (_hfoot : cfg.includeFoot = false)
    (_hspan : cfg.useSpanFallback = false)
    (hhd : cfg.includeHead = cfg.csvHasHeaderRow)
    (hrect : ∀ r ∈ g, r.length = effectiveCols cfg)
    (hne : cfg.includeHead = true → g ≠ []) :
    extractRowsFromXscp (some (build cfg).nodes) =
      some { rows := g, hasHeader := cfg.includeHead } := by
  rw [extract_of_buildShape (build_spec cfg),
    expectedRows_eq_grid cfg g hcsv hhd hrect hne]

/-- C1 witness: a rectangular 2-by-2 grid with a designated header row
round-trips exactly through build and extract. -/
theorem build_extract_roundtrip_witness :
    cfgRt.csvData = some [["a", "b"], ["c", "d"]] ∧
    extractRowsFromXscp (some (build cfgRt).nodes) =
      some { rows := [["a", "b"], ["c", "d"]], hasHeader := cfgRt.includeHead } :=
  ⟨by decide, build_extract_roundtrip cfgRt [["a", "b"], ["c", "d"]] (by decide)
    (by decide) (by decide) (by decide) (by decide) (by decide)⟩

/-- C1 counterexample: span fallback off and no footer do not suffice — the
ragged grid `[["a","b"],["c"]]` is extracted as `[["a","b"],["c",""]]`,
padded to the maximal row width, which differs from the source grid. -/
theorem build_extract_roundtrip_counterexample :
    cfgRagged.csvData = some [["a", "b"], ["c"]] ∧
    cfgRagged.includeFoot = false ∧ cfgRagged.useSpanFallback = false ∧
    extractRowsFromXscp (some (build cfgRagged).nodes) =
      some { rows := [["a", "b"], ["c", ""]], hasHeader := false } ∧
    [["a", "b"], ["c", ""]] ≠ [["a", "b"], ["c"]] := by
  refine ⟨by decide, by decide, by decide, by decide, by decide⟩

/-! ### Claim C2: footer cells -/

/-- C2.  Footer cells are not textless: the single `tfoot` row is built by
`makeRow("tfoot", 0)`, which reads source row 0, so the footer re-displays
the first grid row's texts (`rowTexts cfg "tfoot" 0`). -/
theorem footer_reads_first_row (cfg : Config) (h : cfg.includeFoot = true) :
    footerRowsOf (build cfg).nodes = [rowTexts cfg "tfoot" 0] := by
  rw [footer_of_buildShape (build_spec cfg), if_pos h]

/-- C2 witness: the footer of the `[["x"]]` build carries the texts of grid
row 0. -/
theorem footer_reads_first_row_witness :
    cfgFoot.includeFoot = true ∧
    footerRowsOf (build cfgFoot).nodes = [rowTexts cfgFoot "tfoot" 0] :=
  ⟨by decide, footer_reads_first_row cfgFoot (by decide)⟩

/-- C2 counterexample: with grid `[["x"]]` and a footer, the footer cell
carries the text `"x"` — not the claimed empty content. -/
theorem footer_textless_counterexample :
    footerRowsOf (build cfgFoot).nodes = [["x"]] ∧ ("x" : String) ≠ "" := by
  refine ⟨by decide, by decide⟩

/-! ### Claim C5: section order -/

/-- C5.  For every flag combination the built table's children resolve, in
order, to the optional `thead`, the `tbody`, and the optional `tfoot`. -/
theorem table_children_order (cfg : Config) :
    ∃ table, ((build cfg).nodes).head? = some table ∧ table.dataTag = "table" ∧
      table.children.map (fun c =>
          ((indexById (build cfg).nodes c).map (fun n => n.dataTag)).getD "") =
        (if cfg.includeHead then ["thead"] else []) ++ ["tbody"] ++
          (if cfg.includeFoot then ["tfoot"] else []) := by
  obtain ⟨hnd, hcl, hpl, hlen, table, hhd, htt, htdt, bid, hPart, fPart,
    hBsec, hHs, hFs, hch, hHsec, hFsec⟩ := build_spec cfg
  obtain ⟨secB, hidxB, httB, hdtB, htrsB⟩ := hBsec
  refine ⟨table, hhd, htdt, ?_⟩
  rw [hch]
  rcases hPart with _ | hid
  · have hH : cfg.includeHead = false := by simpa using hHs
    rcases fPart with _ | fid
    · have hF : cfg.includeFoot = false := by simpa using hFs
      simp [hidxB, hdtB, hH, hF]
    · obtain ⟨secF, hidxF, httF, hdtF, htrsF⟩ := hFsec fid rfl
      have hF : cfg.includeFoot = true := hFs.mp rfl
      simp [hidxB, hdtB, hidxF, hdtF, hH, hF]
  · obtain ⟨secH, hidxH, httH, hdtH, htrsH⟩ := hHsec hid rfl
    have hH : cfg.includeHead = true := hHs.mp rfl
    rcases fPart with _ | fid
    · have hF : cfg.includeFoot = false := by simpa using hFs
      simp [hidxB, hdtB, hidxH, hdtH, hH, hF]
    · obtain ⟨secF, hidxF, httF, hdtF, htrsF⟩ := hFsec fid rfl
      have hF : cfg.includeFoot = true := hFs.mp rfl
      simp [hidxB, hdtB, hidxH, hdtH, hidxF, hdtF, hH, hF]

/-! ### Claim C6: well-formed graphs -/

/-- C6.  Built graphs are well-formed: node ids are unique across the whole
graph, and every id referenced in any children sequence resolves to a node
present in the graph. -/
theorem build_graph_wellformed (cfg : Config) :
    (idsOf (build cfg).nodes).Nodup ∧
    ∀ n ∈ (build cfg).nodes, ∀ c ∈ n.children,
      ∃ m ∈ (build cfg).nodes, m._id = c := by
  obtain ⟨hnd, hcl, -⟩ := build_spec cfg
  exact ⟨hnd, fun n hn c hc => mem_idsOf.mp (hcl n hn c hc)⟩

/-! ### Claim C10: grid-less builds -/

/-- C10.  A grid-less build creates every cell with an empty children
sequence — no text node and no span wrapper anywhere in the graph — and
extraction of such a build recovers every cell as the empty string. -/
theorem gridless_build_blank (cfg : Config) (hcsv : cfg.csvData = none) :
    (∀ n ∈ (build cfg).nodes, n.text = false ∧ n.dataTag ≠ "span" ∧
      ((n.dataTag = "td" ∨ n.dataTag = "th") → n.children = [])) ∧
    extractRowsFromXscp (some (build cfg).nodes) =
      some { rows := expectedRows cfg, hasHeader := cfg.includeHead } ∧
    ∀ row ∈ expectedRows cfg, ∀ t ∈ row, t = "" := by
  obtain ⟨hnd, hcl, hpl, -⟩ := build_spec cfg
  exact ⟨hpl hcsv, extract_of_buildShape (build_spec cfg), expectedRows_blank hcsv⟩

/-- C10 witness: the 1-by-1 grid-less build with its default header. -/
theorem gridless_build_blank_witness :
    cfgBlank.csvData = none ∧
    ((∀ n ∈ (build cfgBlank).nodes, n.text = false ∧ n.dataTag ≠ "span" ∧
        ((n.dataTag = "td" ∨ n.dataTag = "th") → n.children = [])) ∧
      extractRowsFromXscp (some (build cfgBlank).nodes) =
        some { rows := expectedRows cfgBlank, hasHeader := cfgBlank.includeHead } ∧
      ∀ row ∈ expectedRows cfgBlank, ∀ t ∈ row, t = "") :=
  ⟨rfl, gridless_build_blank cfgBlank rfl⟩

end WebflowTables
